import Mathlib

/-!
# Verification of the DB_Test game-master service core logic

A shallow embedding of the pure/sequential core of the repository:

* `_deep_merge` from `src/agents/gamemaster.py` (Python dictionaries are
  modelled as insertion-ordered association lists, exceptions as `Option`);
* the hybrid chat-summary assembly, the character-update/death branch, the
  persistence steps and the error handler of
  `LangChainGameMaster.process_game_request`;
* `ScenarioDataManager.add_chat_message` / `get_chat_history` from
  `src/data/mongo_manager.py` (MongoDB is modelled as an in-memory list of
  documents, single writer);
* `ComfyUIManager.wait_for_completion` from `src/comfy_manager.py`
  (wall-clock time is discretised into 1-second polling ticks).

External services (the Ollama LLM, HTTP APIs, ChromaDB, MongoDB's network
layer) are modelled as data supplied by an environment record: each external
call's observable result is a field of the environment, and every
state-changing call that the claims mention is recorded in an effect trace.
-/

namespace DBTest

/-- A Python value as it appears in the JSON-shaped data the game master
manipulates.  Dictionaries are insertion-ordered association lists, matching
CPython's ordered dictionaries. -/
inductive PyVal where
  | pynone : PyVal
  | pybool : Bool → PyVal
  | pyint : Int → PyVal
  | pystr : String → PyVal
  | pylist : List PyVal → PyVal
  | pydict : List (String × PyVal) → PyVal

/-- First value bound to key `k`, i.e. Python `d[k]` / `k in d` on an ordered
dict (keys are unique in genuine Python dicts, so "first" is exact). -/
def lookupKey : List (String × PyVal) → String → Option PyVal
  | [], _ => none
  | (k', v) :: rest, k => if k' = k then some v else lookupKey rest k

/-- Python `d[k] = v` on an ordered dict: overwrite in place if the key is
present, otherwise append at the end (CPython insertion order). -/
def setKey : List (String × PyVal) → String → PyVal → List (String × PyVal)
  | [], k, v => [(k, v)]
  | (k', v') :: rest, k, v =>
      if k' = k then (k, v) :: rest else (k', v') :: setKey rest k v

/-- Python truthiness of a value (`bool(v)`): `None`, `False`, `0`, and empty
strings/lists/dicts are falsy, everything else truthy. -/
def pyTruthy : PyVal → Bool
  | .pynone => false
  | .pybool b => b
  | .pyint n => decide (n ≠ 0)
  | .pystr s => !s.data.isEmpty
  | .pylist xs => !xs.isEmpty
  | .pydict es => !es.isEmpty

/-- Is the value a Python `dict`? (`isinstance(v, dict)`). -/
def isDict : PyVal → Bool
  | .pydict _ => true
  | _ => false

/-- Models `_deep_merge(source, destination)` from `src/agents/gamemaster.py`,
lines 28-41, on the entry lists of the two dictionaries.  For each
`(key, value)` of `source` in order: a dict value is merged recursively into
`destination.setdefault(key, {})`, a list value replaces the destination
value wholesale, and any other value overwrites it.  `none` models the
`AttributeError`/`TypeError` CPython raises when a dict value of `source`
meets an existing non-dict destination value and the sub-dictionary is
non-empty (every statement of the loop body of `_deep_merge` then raises). -/
def deepMergeEntries : List (String × PyVal) → List (String × PyVal) →
    Option (List (String × PyVal))
  | [], dest => some dest
  | (k, PyVal.pydict sub) :: rest, dest =>
      match lookupKey dest k with
      | some (PyVal.pydict node) =>
          match deepMergeEntries sub node with
          | none => none
          | some merged => deepMergeEntries rest (setKey dest k (.pydict merged))
      | some _ =>
          -- `setdefault` returns the existing non-dict value; recursing into
          -- it raises unless the source sub-dictionary is empty.
          if sub.isEmpty then deepMergeEntries rest dest else none
      | none =>
          match deepMergeEntries sub [] with
          | none => none
          | some merged => deepMergeEntries rest (setKey dest k (.pydict merged))
  | (k, v) :: rest, dest => deepMergeEntries rest (setKey dest k v)
termination_by src _ => sizeOf src
decreasing_by all_goals simp_wf <;> omega

/-- Models `_deep_merge(source, destination)` on whole values: both arguments are
dictionaries at every call site; a non-dict destination raises as soon as the
loop body runs (i.e. unless `source` is empty). -/
def deepMerge (source destination : PyVal) : Option PyVal :=
  match source, destination with
  | .pydict src, .pydict dest => (deepMergeEntries src dest).map .pydict
  | .pydict src, other => if src.isEmpty then some other else none
  | _, _ => none

/-! ## Conversation records from the ChromaDB vector store

Python compares the timestamp strings lexicographically by Unicode code
point — the order of lexicographic `<` on their character lists.
`vector_store.get(where={"type": "conversation"})` returns parallel
`documents`/`metadatas` lists; `process_game_request` (lines 118-127) and
`_handle_character_death` (lines 381-392) turn them into per-conversation
records.  The fields already carry the `metadata.get` defaults applied by
that code (`timestamp` defaults to the empty string, `sequence_number` to
`0`, `role` to the word unknown). -/

structure ConvRecord where
  content : String
  timestamp : String
  sequence : Int
  role : String

/-- Python string `<`, via the code-point lexicographic order on the
character lists. -/
def strLt (a b : String) : Bool := decide (a.data < b.data)

/-- The sort key order of line 127: ascending `(timestamp, sequence)`,
tuples compared lexicographically as Python does. -/
def convLe (a b : ConvRecord) : Bool :=
  strLt a.timestamp b.timestamp ||
    (decide (a.timestamp = b.timestamp) && decide (a.sequence ≤ b.sequence))

/-- The sort key order of line 392: ascending `timestamp` alone. -/
def tsLe (a b : ConvRecord) : Bool :=
  strLt a.timestamp b.timestamp || decide (a.timestamp = b.timestamp)

instance : IsTotal ConvRecord (fun a b => convLe a b = true) := by
  constructor
  intro a b
  simp only [convLe, strLt, Bool.or_eq_true, Bool.and_eq_true,
    decide_eq_true_eq]
  rcases lt_trichotomy a.timestamp.data b.timestamp.data with h | h | h
  · exact Or.inl (Or.inl h)
  · have he : a.timestamp = b.timestamp := String.ext h
    rcases Int.le_total a.sequence b.sequence with h' | h'
    · exact Or.inl (Or.inr ⟨he, h'⟩)
    · exact Or.inr (Or.inr ⟨he.symm, h'⟩)
  · exact Or.inr (Or.inl h)

instance : IsTrans ConvRecord (fun a b => convLe a b = true) := by
  constructor
  intro a b c hab hbc
  simp only [convLe, strLt, Bool.or_eq_true, Bool.and_eq_true,
    decide_eq_true_eq] at hab hbc ⊢
  rcases hab with hab | ⟨hab, hab'⟩
  · rcases hbc with hbc | ⟨hbc, _⟩
    · exact Or.inl (lt_trans hab hbc)
    · exact Or.inl (hbc ▸ hab)
  · rcases hbc with hbc | ⟨hbc, hbc'⟩
    · exact Or.inl (hab ▸ hbc)
    · exact Or.inr ⟨hab.trans hbc, hab'.trans hbc'⟩

instance : IsTotal ConvRecord (fun a b => tsLe a b = true) := by
  constructor
  intro a b
  simp only [tsLe, strLt, Bool.or_eq_true, decide_eq_true_eq]
  rcases lt_trichotomy a.timestamp.data b.timestamp.data with h | h | h
  · exact Or.inl (Or.inl h)
  · exact Or.inl (Or.inr (String.ext h))
  · exact Or.inr (Or.inl h)

instance : IsTrans ConvRecord (fun a b => tsLe a b = true) := by
  constructor
  intro a b c hab hbc
  simp only [tsLe, strLt, Bool.or_eq_true, decide_eq_true_eq] at hab hbc ⊢
  rcases hab with hab | hab
  · rcases hbc with hbc | hbc
    · exact Or.inl (lt_trans hab hbc)
    · exact Or.inl (hbc ▸ hab)
  · rcases hbc with hbc | hbc
    · exact Or.inl (hab ▸ hbc)
    · exact Or.inr (hab.trans hbc)

/-- Models the sort of line 127: ascending by the key pair
(timestamp, sequence). -/
def sortConvs (recs : List ConvRecord) : List ConvRecord :=
  List.insertionSort (fun a b => convLe a b = true) recs

/-- Models the sort of line 392: ascending by timestamp alone. -/
def sortConvsByTimestamp (recs : List ConvRecord) : List ConvRecord :=
  List.insertionSort (fun a b => tsLe a b = true) recs

/-! ## Hybrid chat-summary assembly (lines 108-156) -/

/-- Constant `RECENT_LIMIT = 10` (line 132): the fixed context-window threshold. -/
def RECENT_LIMIT : Nat := 10

/-- The chat-summary construction of lines 110-155, applied to the
time-sorted conversation list: if the total count exceeds `RECENT_LIMIT`,
emit the vector-search block (when `relevant_context` is non-empty) followed
by the verbatim block of the most recent `RECENT_LIMIT` conversations;
otherwise emit all conversations verbatim; with no parts at all, the fixed
new-session sentence. -/
def buildChatSummary (allConversations : List ConvRecord)
    (contextInfo : String) (hasRelevant : Bool) : String :=
  let totalCount := allConversations.length
  let parts : List String :=
    if totalCount > RECENT_LIMIT then
      let recentConversations := allConversations.drop (totalCount - RECENT_LIMIT)
      (if hasRelevant then
        ["[과거 관련 대화 (벡터 검색)]\n" ++ contextInfo ++ "\n"] else []) ++
      (if !recentConversations.isEmpty then
        ["[최근 대화 (" ++ toString recentConversations.length ++ "턴)]\n" ++
          String.intercalate "\n" (recentConversations.map (·.content))]
       else [])
    else
      if !allConversations.isEmpty then
        ["[대화 내역 (" ++ toString allConversations.length ++ "턴)]\n" ++
          String.intercalate "\n" (allConversations.map (·.content))]
      else []
  if !parts.isEmpty then String.intercalate "\n" parts
  else "새로운 게임 세션입니다."

/-- Lines 113-127 followed by lines 131-155: read the conversation records
from the vector store (an absent store or a failed `get` leaves the list
empty), sort them by `(timestamp, sequence)`, and build the summary. -/
def hybridChatSummary (storeRecords : Option (List ConvRecord))
    (contextInfo : String) (hasRelevant : Bool) : String :=
  let allConversations :=
    match storeRecords with
    | some recs => sortConvs recs
    | none => []
  buildChatSummary allConversations contextInfo hasRelevant

/-! ## Python stringification and dict/sequence primitives -/

mutual
/-- Python `repr` of a value (used by `str` on containers).  Quote escaping
inside rendered strings is not reproduced; no claim inspects it. -/
def pyRepr : PyVal → String
  | .pynone => "None"
  | .pybool true => "True"
  | .pybool false => "False"
  | .pyint n => toString n
  | .pystr s => "\x27" ++ s ++ "\x27"
  | .pylist xs => "[" ++ pyReprList xs ++ "]"
  | .pydict es => "\x7b" ++ pyReprEntries es ++ "\x7d"

/-- Comma-separated `repr`s of the elements of a list. -/
def pyReprList : List PyVal → String
  | [] => ""
  | [x] => pyRepr x
  | x :: xs => pyRepr x ++ ", " ++ pyReprList xs

/-- Comma-separated `key: value` `repr`s of the entries of a dict. -/
def pyReprEntries : List (String × PyVal) → String
  | [] => ""
  | [(k, v)] => "\x27" ++ k ++ "\x27: " ++ pyRepr v
  | (k, v) :: es => "\x27" ++ k ++ "\x27: " ++ pyRepr v ++ ", " ++ pyReprEntries es
end

/-- Python `str(v)`, as applied by f-string interpolation. -/
def pyStr : PyVal → String
  | .pystr s => s
  | v => pyRepr v

/-- The exceptions the modelled code can raise. -/
inductive PyErr where
  | keyError (k : String)
  | typeError
  | attributeError
  | jsonDecodeError

/-- Models `str(e)` as interpolated into the error response
(`KeyError` stringifies to the `repr` of the missing key). -/
def errString : PyErr → String
  | .keyError k => "\x27" ++ k ++ "\x27"
  | .typeError => "unsupported operand type"
  | .attributeError => "object has no attribute"
  | .jsonDecodeError => "Expecting value"

/-- Contiguous-substring test on character lists (Python `needle in hay`
for strings). -/
def hasSubstring (needle : List Char) : List Char → Bool
  | [] => needle.isEmpty
  | c :: rest => needle.isPrefixOf (c :: rest) || hasSubstring needle rest

/-- Python `k in v`: key membership for dicts, element equality for lists,
substring test for strings; iteration over any other value raises
`TypeError`. -/
def pyContains (v : PyVal) (k : String) : Except PyErr Bool :=
  match v with
  | .pydict es => .ok (lookupKey es k).isSome
  | .pylist xs =>
      .ok (xs.any fun x => match x with
        | .pystr s => decide (s = k)
        | _ => false)
  | .pystr s => .ok (hasSubstring k.data s.data)
  | _ => .error .typeError

/-- Python `v[k]` with a string key: dict lookup (raising `KeyError` when the
key is absent); list/string subscripts with a string raise `TypeError`, as
does subscripting any non-container. -/
def pyIndexStr (v : PyVal) (k : String) : Except PyErr PyVal :=
  match v with
  | .pydict es =>
      match lookupKey es k with
      | some w => .ok w
      | none => .error (.keyError k)
  | _ => .error .typeError

/-- Python `v.get(k, d)`: only dicts have `.get`; anything else raises
`AttributeError`. -/
def pyGet (v : PyVal) (k : String) (d : PyVal) : Except PyErr PyVal :=
  match v with
  | .pydict es => .ok ((lookupKey es k).getD d)
  | _ => .error .attributeError

/-- Total variant of `v.get(k, d)`, used only where the value is already
known to be a dict. -/
def pyGetD (v : PyVal) (k : String) (d : PyVal) : PyVal :=
  match v with
  | .pydict es => (lookupKey es k).getD d
  | _ => d

/-- The entry list of a dict (only applied after an `isinstance(v, dict)`
check). -/
def dictEntries : PyVal → List (String × PyVal)
  | .pydict es => es
  | _ => []

/-- Python `v <= 0`: defined for ints and bools (`False <= 0` is `True`);
any other operand raises `TypeError`. -/
def pyLeZero (v : PyVal) : Except PyErr Bool :=
  match v with
  | .pyint n => .ok (decide (n ≤ 0))
  | .pybool b => .ok (decide ((if b then (1 : Int) else 0) ≤ 0))
  | _ => .error .typeError

/-! ## Environment: observable results of the external services

`process_game_request` talks to HTTP APIs, an Ollama LLM, ChromaDB and
LangChain memory.  Each external call's result is a field of `Env`; calls
that store data are recorded in an effect trace instead. -/

/-- A document returned by `search_relevant_context`: its `page_content` and
its `metadata.get("type", "unknown")`. -/
structure RetrievedDoc where
  pageContent : String
  docType : String

/-- The observable outcome of `gm_chain.run` followed by the JSON-parsing
block of lines 170-195. -/
inductive GmOutcome where
  /-- Case where `gm_response` was `None` or blank (line 172). -/
  | empty
  /-- Case where `json.loads` raised `JSONDecodeError` on the (non-blank)
  raw response (line 181). -/
  | invalidJson (raw : String)
  /-- some other exception while handling the response (line 189). -/
  | failure
  /-- Case where `json.loads` succeeded. -/
  | parsed (data : PyVal)

/-- Outcome of the `requests.patch` call in `_update_character_info`:
a `RequestException` is caught (the function then returns `None`), while a
failure of `response.json()` propagates. -/
inductive PatchOutcome where
  | requestFailed
  | decodeFailed
  | ok (updatedChar : PyVal)

/-- Results of all external calls one `process_game_request` run makes. -/
structure Env where
  /-- Result of `_prepare_game_context(game_id)` (pure HTTP + formatting). -/
  gameContext : String
  /-- Result of `search_relevant_context(game_id, user_input, k=10)`. -/
  relevantDocs : List RetrievedDoc
  /-- Result of `vector_stores.get(game_id)` followed by
  `vector_store.get(where={"type": "conversation"})`: `none` when there is
  no store for the game (a failed `get` likewise leaves the record list
  empty). -/
  storeRecords : Option (List ConvRecord)
  /-- Result of `gm_chain.run(game_context, chat_summary, relevant_context,
  user_input)` combined with JSON parsing. -/
  gmRun : String → String → String → String → GmOutcome
  /-- Result of `context_manager.get_context(game_id, "characters")`; `[]` models both
  an unset context and an empty character list. -/
  contextCharacters : List PyVal
  /-- the `requests.patch` call of `_update_character_info`. -/
  patchResult : PatchOutcome
  /-- Result of `self.llm.invoke(prompt)` in `_handle_character_death`. -/
  llmInvoke : String → String
  /-- Result of `datetime.now().isoformat()`. -/
  now : String
  /-- the index drawn by `random.choice` in `_handle_error`. -/
  errorPick : Nat

/-- One `memory_manager.add_message(game_id, user_input, ai_response, ...)`
call (`src/memory/game_memory.py`, lines 47-52). -/
structure MemoryAdd where
  gameId : String
  humanInput : String
  aiResponse : PyVal

/-- One `vector_memory_manager.add_scenario_data(game_id, content,
metadata)` call, keyed by the `source` metadata field
(`"user_input"` or `"ai_response"`). -/
structure VectorAdd where
  gameId : String
  source : String
  content : String

/-- The persistence calls a run performs, in order. -/
structure Effects where
  memoryAdds : List MemoryAdd
  vectorAdds : List VectorAdd

/-- The empty effect trace. -/
def noEffects : Effects := ⟨[], []⟩

/-! ## `_update_character_info` (lines 321-369) and the death branch -/

/-- Constant `allowed_fields` (line 342). -/
def allowedFields : List String :=
  ["name", "class", "level", "stats", "inventory", "avatar", "health"]

/-- Models `_update_character_info(game_id, update_data)`: take the first stored
character, deep-merge the update into a copy of it, and if any allowed field
occurs in the update, send the patch.  Returns `none` where the code returns
`None` (no characters, nothing to send, or a caught request failure); an
uncaught exception (a deep-merge type clash, or `response.json()` failing)
is an `Except.error`.  The payload values themselves leave the model through
HTTP; only which fields occur affects control flow. -/
def updateCharacterInfo (env : Env) (updateData : List (String × PyVal)) :
    Except PyErr (Option PyVal) :=
  match env.contextCharacters with
  | [] => .ok none
  | orig :: _ =>
      match deepMerge (.pydict updateData) orig with
      | none => .error .typeError
      | some _merged =>
          let fields := allowedFields.filter
            (fun f => (lookupKey updateData f).isSome)
          if fields.isEmpty then .ok none
          else
            match env.patchResult with
            | .requestFailed => .ok none
            | .decodeFailed => .error .jsonDecodeError
            | .ok updatedChar => .ok (some updatedChar)

/-- The death test of line 205:
`updated_char and updated_char.get("health", 1) <= 0` with the Python
short-circuit evaluation. -/
def deathCondition (updatedChar : PyVal) : Except PyErr Bool :=
  if pyTruthy updatedChar then do
    let h ← pyGet updatedChar "health" (.pyint 1)
    pyLeZero h
  else .ok false

/-- The prompt interpolated at lines 398-419 (field accesses use the
defaults of the source). -/
def deathPromptText (character : PyVal) (historyText : String)
    (finalAction : String) (deathContext : PyVal) : String :=
  "캐릭터가 사망했습니다. 다음 정보를 바탕으로 죽음의 원인과 캐릭터의 여정을 요약해주세요.\n\n" ++
  "=== 캐릭터 정보 ===\n" ++
  "이름: " ++ pyStr (pyGetD character "name" (.pystr "알 수 없음")) ++ "\n" ++
  "직업: " ++ pyStr (pyGetD character "class" (.pystr "알 수 없음")) ++ "\n" ++
  "레벨: " ++ pyStr (pyGetD character "level" (.pyint 1)) ++ "\n\n" ++
  "=== 최근 게임 진행 ===\n" ++ historyText ++ "\n\n" ++
  "=== 마지막 행동 ===\n" ++ finalAction ++ "\n\n" ++
  "=== 죽음의 순간 ===\n" ++ pyStr deathContext ++ "\n\n" ++
  "다음 형식으로 응답해주세요:\n" ++
  "1. 죽음의 원인을 2-3문장으로 설명\n" ++
  "2. 캐릭터의 여정을 3-4문장으로 요약 (시작부터 끝까지)\n" ++
  "3. 감동적이고 극적인 마무리 문장\n\n" ++
  "전체를 하나의 자연스러운 이야기로 작성하세요."

/-- The framed farewell message of lines 424-435. -/
def deathMessageText (character : PyVal) (deathSummary : String) : String :=
  "\n═══════════════════════════════════════\n" ++
  "        " ++ pyStr (pyGetD character "name" (.pystr "모험가")) ++ "의 마지막\n" ++
  "═══════════════════════════════════════\n\n" ++
  deathSummary ++ "\n\n" ++
  "체력: 0/" ++ pyStr (pyGetD character "maxHealth" (.pyint 0)) ++ "\n\n" ++
  "게임이 종료되었습니다.\n" ++
  "═══════════════════════════════════════\n"

/-- Lines 374-395: the stored conversation (an absent store is initialised
empty), sorted by timestamp, most recent 20 entries joined. -/
def deathHistoryText (env : Env) : String :=
  let records := match env.storeRecords with
    | some recs => recs
    | none => []
  let conversationHistory := sortConvsByTimestamp records
  String.intercalate "\n"
    ((conversationHistory.drop (conversationHistory.length - 20)).map (·.content))

/-- Models `_handle_character_death(game_id, character, final_action,
death_context)` (lines 371-460): gather the stored conversation, sort it by
timestamp, keep the most recent 20 entries, ask the LLM once for the death
summary, and return the game-over response.  The external reads/LLM call
are environment fields and never raise here, so the internal `except`
fallback (lines 450-460) is not reachable in the model. -/
def handleCharacterDeath (env : Env) (character : PyVal)
    (finalAction : String) (deathContext : PyVal) : PyVal :=
  let deathSummary := env.llmInvoke
    (deathPromptText character (deathHistoryText env) finalAction deathContext)
  .pydict [("success", .pybool true),
    ("message", .pystr (deathMessageText character deathSummary)),
    ("options", .pylist []),
    ("need_image", .pybool false),
    ("game_over", .pybool true),
    ("character_death", .pybool true),
    ("character_name", pyGetD character "name" .pynone),
    ("timestamp", .pystr env.now)]

/-! ## `process_game_request` (lines 84-260) -/

/-- The parsed `response_data` of lines 170-195 for each outcome of the LLM
call (every parsing failure is caught and replaced by a default dict). -/
def responseDataFor : GmOutcome → PyVal
  | .empty => .pydict
      [("message", .pystr "죄송합니다. 응답을 생성할 수 없습니다. 다시 시도해주세요."),
       ("options", .pylist [.pystr "다시 시도", .pystr "상황 확인"]),
       ("need_image", .pybool false)]
  | .invalidJson raw => .pydict
      [("message", .pystr raw),
       ("options", .pylist [.pystr "계속 진행", .pystr "상황 확인", .pystr "다른 행동"]),
       ("need_image", .pybool false)]
  | .failure => .pydict
      [("message", .pystr "시스템 오류가 발생했습니다."),
       ("options", .pylist [.pystr "다시 시도"]),
       ("need_image", .pybool false)]
  | .parsed data => data

/-- Step 6 of `process_game_request` (lines 197-209): if the response holds
a truthy `update_character` dict, update the character; when the updated
character's health test fires, return the death response (`some ...`),
otherwise fall through (`none`).  Note that `response_data["message"]` is
evaluated as an argument before `_handle_character_death` is entered. -/
def characterPhase (env : Env) (userInput : String) (responseData : PyVal) :
    Except PyErr (Option PyVal) := do
  let mem ← pyContains responseData "update_character"
  if mem then
    let updateInfo ← pyIndexStr responseData "update_character"
    if pyTruthy updateInfo && isDict updateInfo then
      match ← updateCharacterInfo env (dictEntries updateInfo) with
      | some updatedChar =>
          let dead ← deathCondition updatedChar
          if dead then do
            let deathContext ← pyIndexStr responseData "message"
            pure (some (handleCharacterDeath env updatedChar userInput deathContext))
          else pure none
      | none => pure none
    else pure none
  else pure none

/-- Step 3 (line 105): the newline-joined page contents of the retrieved
documents, empty when the search returned nothing. -/
def contextInfoOf (env : Env) : String :=
  if !env.relevantDocs.isEmpty then
    String.intercalate "\n" (env.relevantDocs.map (·.pageContent))
  else ""

/-- Steps 7-9 and the result dict of lines 211-249, taken when the death
branch did not fire: persist the exchange in the LangChain memory and the
vector store, then build the success response. -/
def persistAndRespond (env : Env) (userInput : String) (responseData : PyVal) :
    Except PyErr (PyVal × Effects) := do
      -- step 7: the LangChain memory write; `response_data["message"]` is
      -- evaluated first and can raise.
      let aiMessage ← pyIndexStr responseData "message"
      let memAdds := [MemoryAdd.mk "game" userInput aiMessage]
      -- step 8: the user input always reaches the vector store.
      let vecUser := [VectorAdd.mk "game" "user_input" ("사용자: " ++ userInput)]
      -- step 9: the AI response reaches the vector store when the response
      -- dict is truthy and holds a message.
      let vecAi ←
        if pyTruthy responseData then do
          let hasMsg ← pyContains responseData "message"
          if hasMsg then do
            let imageUrl ← pyGet responseData "image_url" .pynone
            let content := "GM: " ++ pyStr aiMessage ++
              (if pyTruthy imageUrl then "\n[이미지: " ++ pyStr imageUrl ++ "]" else "")
            pure [VectorAdd.mk "game" "ai_response" content]
          else pure []
        else pure ([] : List VectorAdd)
      let needImageForInfo ← pyGet responseData "need_image" (.pybool false)
      let imageInfo ←
        if pyTruthy needImageForInfo then do
          let imagePrompt ← pyGet responseData "image_prompt" .pynone
          if pyTruthy imagePrompt then
            pure (PyVal.pydict
              [("should_generate", .pybool true),
               ("prompt", imagePrompt),
               ("reason", .pystr "Scene visualization")])
          else pure PyVal.pynone
        else pure PyVal.pynone
      let options ← pyGet responseData "options" (.pylist [])
      let needImage ← pyGet responseData "need_image" (.pybool false)
      let result := PyVal.pydict
        [("success", .pybool true),
         ("message", aiMessage),
         ("options", options),
         ("need_image", needImage),
         ("image_info", imageInfo),
         ("relevant_context_found", .pybool (!env.relevantDocs.isEmpty)),
         ("timestamp", .pystr env.now)]
      pure (result, ⟨memAdds, vecUser ++ vecAi⟩)

/-- The body of the top-level `try` of `process_game_request`: steps 1-9 and
the result dict of lines 240-249, together with the persistence trace.  An
`Except.error` is an uncaught exception reaching the outer `except`. -/
def processBody (env : Env) (userInput : String) :
    Except PyErr (PyVal × Effects) := do
  let contextInfo := contextInfoOf env
  let chatSummary :=
    hybridChatSummary env.storeRecords contextInfo (!env.relevantDocs.isEmpty)
  let responseData :=
    responseDataFor (env.gmRun env.gameContext chatSummary contextInfo userInput)
  match ← characterPhase env userInput responseData with
  | some deathResponse => pure (deathResponse, noEffects)
  | none => persistAndRespond env userInput responseData

/-- Constant `error_responses` of `_handle_error` (lines 591-595). -/
def errorResponses : List String :=
  ["죄송합니다. 잠시 문제가 발생했습니다. 다시 시도해 주세요.",
   "게임 진행 중 오류가 발생했습니다. 다른 행동을 시도해보세요.",
   "시스템에 일시적인 문제가 있습니다. 곧 다시 정상화될 예정입니다."]

/-- Models `_handle_error(error)` (lines 589-604): a canned message chosen by
`random.choice`, the fixed options, and the stringified exception. -/
def handleError (env : Env) (e : PyErr) : PyVal :=
  .pydict [("success", .pybool false),
    ("message", .pystr (errorResponses.getD (env.errorPick % errorResponses.length) "")),
    ("options", .pylist [.pystr "다시 시도", .pystr "상태 확인", .pystr "도움말"]),
    ("error", .pystr (errString e)),
    ("timestamp", .pystr env.now)]

/-- Models `process_game_request`: the `try` body, with every uncaught exception
routed to `_handle_error` by the outer `except` (lines 256-260).  No
persistence effect precedes any raising expression, so the error path's
trace is empty. -/
def processGameRequest (env : Env) (userInput : String) : PyVal × Effects :=
  match processBody env userInput with
  | .ok r => r
  | .error e => (handleError env e, noEffects)

/-! ## MongoDB chat history (`src/data/mongo_manager.py`, lines 221-266)

The `chat_history` collection is modelled as an in-memory list of documents
in insertion order (a single writer, so the duplicate-key retry of
`add_chat_message` never fires).  `datetime.now(timezone.utc)` is modelled
by a caller-supplied tick. -/

structure ChatMsg where
  gameId : String
  seq : Nat
  userInput : String
  aiResponse : String
  timestamp : Nat

instance : IsTotal ChatMsg (fun a b => a.seq ≤ b.seq) := ⟨fun a b => Nat.le_total a.seq b.seq⟩

instance : IsTrans ChatMsg (fun a b => a.seq ≤ b.seq) := ⟨fun _ _ _ h h' => Nat.le_trans h h'⟩

instance : IsTotal ChatMsg (fun a b => b.seq ≤ a.seq) := ⟨fun a b => Nat.le_total b.seq a.seq⟩

instance : IsTrans ChatMsg (fun a b => b.seq ≤ a.seq) := ⟨fun _ _ _ h h' => Nat.le_trans h' h⟩

/-- Models the `find_one` call of lines 226-229: the document of the game
with the greatest sequence number, if any. -/
def findMaxSeqDoc (db : List ChatMsg) (g : String) : Option ChatMsg :=
  (List.insertionSort (fun a b => b.seq ≤ a.seq)
    (db.filter (fun m => decide (m.gameId = g)))).head?

/-- Models `add_chat_message` (lines 221-250): one plus the current maximum
sequence number (1 for a fresh game), then `insert_one`. -/
def addChatMessage (db : List ChatMsg) (g ui ar : String) (t : Nat) :
    List ChatMsg :=
  let nextSequence := match findMaxSeqDoc db g with
    | some m => m.seq + 1
    | none => 1
  db ++ [⟨g, nextSequence, ui, ar, t⟩]

/-- Models `get_chat_history` (lines 252-266): fetch the newest `limit` documents
of the game by descending sequence number, then return them sorted by
ascending sequence number. -/
def getChatHistory (db : List ChatMsg) (g : String) (limit : Nat) :
    List ChatMsg :=
  let messages := (List.insertionSort (fun a b => b.seq ≤ a.seq)
    (db.filter (fun m => decide (m.gameId = g)))).take limit
  List.insertionSort (fun a b => a.seq ≤ b.seq) messages

/-- One recorded `add_chat_message` call. -/
structure AddOp where
  gameId : String
  userInput : String
  aiResponse : String
  time : Nat

/-- The collection state after a sequence of `add_chat_message` calls
starting from an empty collection. -/
def mkDB (ops : List AddOp) : List ChatMsg :=
  ops.foldl (fun db op =>
    addChatMessage db op.gameId op.userInput op.aiResponse op.time) []

/-! ## `ComfyUIManager.wait_for_completion` (`src/comfy_manager.py`,
lines 368-384)

The job dictionaries are filled by a background thread; `view k` is
`(prompt_id in completed_jobs, prompt_id in pending_jobs)` as seen by the
check made `k` seconds after the call (`time.sleep(1)` between checks). -/

/-- The `while time.time() - start_time < timeout` loop, checking at one-
second ticks `k, k+1, ...`. -/
def waitPoll (view : Nat → Bool × Bool) (timeout : Nat) (k : Nat) : Bool :=
  if k < timeout then
    if (view k).1 then true
    else if !(view k).2 then false
    else waitPoll view timeout (k + 1)
  else false
termination_by timeout - k

/-- Models `wait_for_completion(prompt_id, timeout)`: first the default
substitution (both `None` and `0` are falsy and give `self.timeout`), then
the polling loop. -/
def waitForCompletion (selfTimeout : Nat) (view : Nat → Bool × Bool)
    (timeout : Option Nat) : Bool :=
  let t := match timeout with
    | none => selfTimeout
    | some n => if n = 0 then selfTimeout else n
  waitPoll view t 0

/-- What C2 predicts for the post-merge binding of key `k`, given the value
`v` the source binds to `k`: a source dict is merged recursively into the
destination's dict at `k` (an empty dict standing in when `k` is absent),
with an existing non-dict destination value surviving only the empty-source
merge; a source list replaces the destination binding wholesale; any other
source value overwrites it. -/
def MergedAt (dest d' : List (String × PyVal)) (k : String) : PyVal → Prop
  | .pydict sub =>
      (∃ node, lookupKey dest k = some (.pydict node) ∧
        ∃ m, deepMergeEntries sub node = some m ∧
          lookupKey d' k = some (.pydict m))
      ∨ (lookupKey dest k = none ∧
          ∃ m, deepMergeEntries sub [] = some m ∧
            lookupKey d' k = some (.pydict m))
      ∨ (∃ w, lookupKey dest k = some w ∧ isDict w = false ∧ sub = [] ∧
          lookupKey d' k = some w)
  | v => lookupKey d' k = some v


/-- Maximum sequence number among a game's stored messages (0 for none). -/
def maxSeqOf (db : List ChatMsg) (g : String) : Nat :=
  ((db.filter (fun m => decide (m.gameId = g))).map (·.seq)).foldr max 0


/-- Per-game sequence numbers strictly increase in insertion order. -/
def SeqInv (db : List ChatMsg) : Prop :=
  List.Pairwise (fun a b => a.gameId = b.gameId → a.seq < b.seq) db

/-- Timestamps are nondecreasing in insertion order. -/
def TimeInv (db : List ChatMsg) : Prop :=
  List.Pairwise (fun a b : ChatMsg => a.timestamp ≤ b.timestamp) db


/-- An environment whose LLM answers with a JSON object that has no
`message` key at all. -/
def envNoMsg : Env where
  gameContext := "ctx"
  relevantDocs := []
  storeRecords := some []
  gmRun := fun _ _ _ _ => .parsed (.pydict [])
  contextCharacters := []
  patchResult := .requestFailed
  llmInvoke := fun _ => "summary"
  now := "2025-01-01T00:00:00"
  errorPick := 0


/-- An environment whose LLM answers with a lethal `update_character` but no
`message` key. -/
def envDeathNoMsg : Env where
  gameContext := "ctx"
  relevantDocs := []
  storeRecords := some []
  gmRun := fun _ _ _ _ => .parsed (.pydict
    [("update_character", .pydict [("health", .pyint 0)])])
  contextCharacters := [.pydict [("health", .pyint 10)]]
  patchResult := .ok (.pydict [("health", .pyint 0)])
  llmInvoke := fun _ => "summary"
  now := "T0"
  errorPick := 0


/-- An environment whose LLM answers with a lethal `update_character` and a
`message`. -/
def envDeathMsg : Env where
  gameContext := "ctx"
  relevantDocs := []
  storeRecords := some []
  gmRun := fun _ _ _ _ => .parsed (.pydict
    [("update_character", .pydict [("health", .pyint 0)]),
     ("message", .pystr "the blow lands")])
  contextCharacters := [.pydict [("health", .pyint 10)]]
  patchResult := .ok (.pydict [("health", .pyint 0)])
  llmInvoke := fun _ => "summary"
  now := "T0"
  errorPick := 0


/-- An environment whose LLM answers with a plain narrative message. -/
def envNormal : Env where
  gameContext := "ctx"
  relevantDocs := []
  storeRecords := some []
  gmRun := fun _ _ _ _ => .parsed (.pydict [("message", .pystr "hello")])
  contextCharacters := []
  patchResult := .requestFailed
  llmInvoke := fun _ => "s"
  now := "T0"
  errorPick := 0


/-! ## Theorems -/

theorem waitPoll_unfold (view : Nat → Bool × Bool) (timeout k : Nat) :
    waitPoll view timeout k =
      if k < timeout then
        if (view k).1 then true
        else if !(view k).2 then false
        else waitPoll view timeout (k + 1)
      else false := by
  rw [waitPoll]

theorem waitPoll_true_iff (view : Nat → Bool × Bool) (t : Nat) :
    ∀ k, (waitPoll view t k = true ↔
      ∃ m, k ≤ m ∧ m < t ∧ (view m).1 = true ∧
        ∀ j, k ≤ j → j < m → (view j).1 = false ∧ (view j).2 = true) := by
  have main : ∀ n k, t - k ≤ n →
      (waitPoll view t k = true ↔
        ∃ m, k ≤ m ∧ m < t ∧ (view m).1 = true ∧
          ∀ j, k ≤ j → j < m → (view j).1 = false ∧ (view j).2 = true) := by
    intro n
    induction n with
    | zero =>
      intro k hk
      have hkt : ¬ k < t := by omega
      rw [waitPoll_unfold, if_neg hkt]
      constructor
      · intro h; simp at h
      · rintro ⟨m, hkm, hmt, _, _⟩; omega
    | succ n ih =>
      intro k hk
      rw [waitPoll_unfold]
      by_cases hkt : k < t
      · rw [if_pos hkt]
        cases hc : (view k).1 with
        | true =>
          simp only [if_pos rfl]
          constructor
          · intro _
            exact ⟨k, Nat.le_refl k, hkt, hc, fun j hj hj' => by omega⟩
          · intro _; rfl
        | false =>
          simp only [Bool.false_eq_true, if_false]
          cases hp : (view k).2 with
          | false =>
            simp only [Bool.not_false, if_pos rfl]
            constructor
            · intro h; simp at h
            · rintro ⟨m, hkm, hmt, hm1, hall⟩
              rcases Nat.eq_or_lt_of_le hkm with heq | hlt
              · rw [← heq] at hm1; rw [hm1] at hc; simp at hc
              · have := (hall k (Nat.le_refl k) hlt).2
                rw [this] at hp; simp at hp
          | true =>
            simp only [Bool.not_true, Bool.false_eq_true, if_false]
            rw [ih (k + 1) (by omega)]
            constructor
            · rintro ⟨m, hkm, hmt, hm1, hall⟩
              exact ⟨m, by omega, hmt, hm1, fun j hj hj' => by
                rcases Nat.eq_or_lt_of_le hj with heq | hlt
                · rw [← heq]; exact ⟨hc, hp⟩
                · exact hall j (by omega) hj'⟩
            · rintro ⟨m, hkm, hmt, hm1, hall⟩
              have hkm' : k + 1 ≤ m := by
                rcases Nat.eq_or_lt_of_le hkm with heq | hlt
                · rw [← heq] at hm1; rw [hm1] at hc; simp at hc
                · omega
              exact ⟨m, hkm', hmt, hm1, fun j hj hj' => hall j (by omega) hj'⟩
      · rw [if_neg hkt]
        constructor
        · intro h; simp at h
        · rintro ⟨m, hkm, hmt, _, _⟩; omega
  exact fun k => main (t - k) k (Nat.le_refl _)

theorem waitPoll_congr (view view' : Nat → Bool × Bool) (t : Nat)
    (h : ∀ m, m < t → view m = view' m) :
    ∀ k, waitPoll view t k = waitPoll view' t k := by
  have main : ∀ n k, t - k ≤ n → waitPoll view t k = waitPoll view' t k := by
    intro n
    induction n with
    | zero =>
      intro k hk
      have hkt : ¬ k < t := by omega
      conv_lhs => rw [waitPoll_unfold]
      conv_rhs => rw [waitPoll_unfold]
      rw [if_neg hkt, if_neg hkt]
    | succ n ih =>
      intro k hk
      conv_lhs => rw [waitPoll_unfold]
      conv_rhs => rw [waitPoll_unfold]
      by_cases hkt : k < t
      · rw [if_pos hkt, if_pos hkt, h k hkt]
        cases (view' k).1 with
        | true => rfl
        | false =>
          cases (view' k).2 with
          | false => rfl
          | true => simpa using ih (k + 1) (by omega)
      · rw [if_neg hkt, if_neg hkt]
  exact fun k => main (t - k) k (Nat.le_refl _)

/-- C7.  `wait_for_completion` with a positive timeout `t` polls at
one-second ticks: it returns `true` exactly when the job enters
`completed_jobs` at some tick before the timeout, having been pending and
uncompleted at every earlier tick; it returns `false` as soon as a tick sees
the job in neither dictionary; it returns `false` when the job stays pending
and uncompleted for all `t` ticks; and its result only depends on the job
state during the first `t` seconds, i.e. the call returns within the
timeout. -/
theorem waitForCompletion_spec (selfTimeout t : Nat)
    (view : Nat → Bool × Bool) (ht : 0 < t) :
    (waitForCompletion selfTimeout view (some t) = true ↔
      ∃ m, m < t ∧ (view m).1 = true ∧
        ∀ j, j < m → (view j).1 = false ∧ (view j).2 = true)
    ∧ ((∀ m, m < t → (view m).1 = false ∧ (view m).2 = true) →
        waitForCompletion selfTimeout view (some t) = false)
    ∧ (∀ m, m < t → (view m).1 = false → (view m).2 = false →
        (∀ j, j < m → (view j).1 = false ∧ (view j).2 = true) →
        waitForCompletion selfTimeout view (some t) = false)
    ∧ (∀ view' : Nat → Bool × Bool, (∀ m, m < t → view m = view' m) →
        waitForCompletion selfTimeout view (some t) =
          waitForCompletion selfTimeout view' (some t)) := by
  have hw : waitForCompletion selfTimeout view (some t) = waitPoll view t 0 := by
    simp only [waitForCompletion]
    rw [if_neg (by omega : ¬ t = 0)]
  refine ⟨?_, ?_, ?_, ?_⟩
  · rw [hw, waitPoll_true_iff]
    constructor
    · rintro ⟨m, _, hmt, hm1, hall⟩
      exact ⟨m, hmt, hm1, fun j hj => hall j (Nat.zero_le j) hj⟩
    · rintro ⟨m, hmt, hm1, hall⟩
      exact ⟨m, Nat.zero_le m, hmt, hm1, fun j _ hj => hall j hj⟩
  · intro hall
    rw [hw]
    cases hres : waitPoll view t 0 with
    | false => rfl
    | true =>
      rcases (waitPoll_true_iff view t 0).mp hres with ⟨m, _, hmt, hm1, _⟩
      rw [(hall m hmt).1] at hm1
      simp at hm1
  · intro m hmt hm1 hm2 hall
    rw [hw]
    cases hres : waitPoll view t 0 with
    | false => rfl
    | true =>
      rcases (waitPoll_true_iff view t 0).mp hres with ⟨m', _, hm't, hm'1, hall'⟩
      rcases Nat.lt_trichotomy m m' with h | h | h
      · have := (hall' m (Nat.zero_le m) h).2
        rw [this] at hm2; simp at hm2
      · rw [h] at hm1; rw [hm1] at hm'1; simp at hm'1
      · have := (hall m' h).1
        rw [this] at hm'1; simp at hm'1
  · intro view' hvv
    have hw' : waitForCompletion selfTimeout view' (some t) = waitPoll view' t 0 := by
      simp only [waitForCompletion]
      rw [if_neg (by omega : ¬ t = 0)]
    rw [hw, hw']
    exact waitPoll_congr view view' t hvv 0

/-- Concrete instance of C7: with the job completing at tick 2 of a
5-second timeout, `wait_for_completion` returns `true`. -/
theorem waitForCompletion_spec_witness :
    waitForCompletion 30
      (fun k => (decide (k = 2), decide (k ≤ 2))) (some 5) = true := by
  refine ((waitForCompletion_spec 30 5
    (fun k => (decide (k = 2), decide (k ≤ 2))) (by decide)).1).mpr ?_
  refine ⟨2, by decide, by decide, ?_⟩
  intro j hj
  interval_cases j <;> exact ⟨by decide, by decide⟩

/-! ### Deep-merge lemmas (C2, C8) -/

theorem lookupKey_setKey_self (d : List (String × PyVal)) (k : String) (v : PyVal) :
    lookupKey (setKey d k v) k = some v := by
  induction d with
  | nil => simp [setKey, lookupKey]
  | cons e rest ih =>
    obtain ⟨k', v'⟩ := e
    by_cases h : k' = k
    · subst h; simp [setKey, lookupKey]
    · simp [setKey, lookupKey, h, ih]

theorem lookupKey_setKey_ne (d : List (String × PyVal)) (k k' : String)
    (v : PyVal) (h : k ≠ k') :
    lookupKey (setKey d k v) k' = lookupKey d k' := by
  induction d with
  | nil => simp [setKey, lookupKey, h]
  | cons e rest ih =>
    obtain ⟨k₀, v₀⟩ := e
    by_cases h0 : k₀ = k
    · subst h0; simp [setKey, lookupKey, h]
    · simp only [setKey, if_neg h0, lookupKey]
      by_cases h1 : k₀ = k'
      · simp [h1]
      · simp [h1, ih]

theorem lookupKey_eq_none_iff (d : List (String × PyVal)) (k : String) :
    lookupKey d k = none ↔ k ∉ d.map Prod.fst := by
  induction d with
  | nil => simp [lookupKey]
  | cons e rest ih =>
    obtain ⟨k₀, v₀⟩ := e
    by_cases h : k₀ = k
    · subst h; simp [lookupKey]
    · simp [lookupKey, h, ih, Ne.symm h]

theorem deepMergeEntries_frame :
    ∀ (src dest d' : List (String × PyVal)),
      deepMergeEntries src dest = some d' →
      ∀ k, lookupKey src k = none → lookupKey d' k = lookupKey dest k := by
  intro src
  induction src with
  | nil =>
    intro dest d' h k _
    simp only [deepMergeEntries] at h
    cases h
    rfl
  | cons e rest ih =>
    obtain ⟨k₀, v₀⟩ := e
    intro dest d' h k hk
    have hk₀ : k₀ ≠ k := by
      intro hcontra
      simp [lookupKey, hcontra] at hk
    have hkrest : lookupKey rest k = none := by
      simpa [lookupKey, hk₀] using hk
    cases v₀ with
    | pydict sub =>
      simp only [deepMergeEntries] at h
      cases hd : lookupKey dest k₀ with
      | none =>
        rw [hd] at h
        dsimp only at h
        cases hm : deepMergeEntries sub [] with
        | none => rw [hm] at h; exact absurd h (by simp)
        | some merged =>
          rw [hm] at h
          dsimp only at h
          rw [ih _ _ h k hkrest, lookupKey_setKey_ne _ _ _ _ hk₀]
      | some w =>
        rw [hd] at h
        cases w with
        | pydict node =>
          dsimp only at h
          cases hm : deepMergeEntries sub node with
          | none => rw [hm] at h; exact absurd h (by simp)
          | some merged =>
            rw [hm] at h
            dsimp only at h
            rw [ih _ _ h k hkrest, lookupKey_setKey_ne _ _ _ _ hk₀]
        | pynone =>
          dsimp only at h
          cases hsub : sub.isEmpty with
          | true => rw [hsub] at h; simp only [if_true] at h; exact ih _ _ h k hkrest
          | false => rw [hsub] at h; simp at h
        | pybool b =>
          dsimp only at h
          cases hsub : sub.isEmpty with
          | true => rw [hsub] at h; simp only [if_true] at h; exact ih _ _ h k hkrest
          | false => rw [hsub] at h; simp at h
        | pyint n =>
          dsimp only at h
          cases hsub : sub.isEmpty with
          | true => rw [hsub] at h; simp only [if_true] at h; exact ih _ _ h k hkrest
          | false => rw [hsub] at h; simp at h
        | pystr s =>
          dsimp only at h
          cases hsub : sub.isEmpty with
          | true => rw [hsub] at h; simp only [if_true] at h; exact ih _ _ h k hkrest
          | false => rw [hsub] at h; simp at h
        | pylist xs =>
          dsimp only at h
          cases hsub : sub.isEmpty with
          | true => rw [hsub] at h; simp only [if_true] at h; exact ih _ _ h k hkrest
          | false => rw [hsub] at h; simp at h
    | pynone =>
      simp only [deepMergeEntries] at h
      rw [ih _ _ h k hkrest, lookupKey_setKey_ne _ _ _ _ hk₀]
    | pybool b =>
      simp only [deepMergeEntries] at h
      rw [ih _ _ h k hkrest, lookupKey_setKey_ne _ _ _ _ hk₀]
    | pyint n =>
      simp only [deepMergeEntries] at h
      rw [ih _ _ h k hkrest, lookupKey_setKey_ne _ _ _ _ hk₀]
    | pystr s =>
      simp only [deepMergeEntries] at h
      rw [ih _ _ h k hkrest, lookupKey_setKey_ne _ _ _ _ hk₀]
    | pylist xs =>
      simp only [deepMergeEntries] at h
      rw [ih _ _ h k hkrest, lookupKey_setKey_ne _ _ _ _ hk₀]

/-- C8.  `_deep_merge` returns its (updated) destination dictionary, and the
merge only touches keys present in the source: whenever the merge of `src`
into `dest` completes with entry list `d'`, the value returned by
`_deep_merge` is that updated destination, and every top-level key that does
not occur in `src` maps in `d'` to exactly the value it had in `dest`. -/
theorem deepMerge_returns_updated_destination
    (src dest d' : List (String × PyVal))
    (h : deepMergeEntries src dest = some d') :
    deepMerge (.pydict src) (.pydict dest) = some (.pydict d')
    ∧ ∀ k, lookupKey src k = none → lookupKey d' k = lookupKey dest k := by
  constructor
  · simp [deepMerge, h]
  · exact deepMergeEntries_frame src dest d' h

/-- Concrete instance of C8: merging `{"a": 1}` into `{"b": 2, "a": 0}`
leaves the untouched key `"b"` bound to its original value. -/
theorem deepMerge_returns_updated_destination_witness :
    lookupKey [("b", PyVal.pyint 2), ("a", PyVal.pyint 1)] "b" =
      lookupKey [("b", PyVal.pyint 2), ("a", PyVal.pyint 0)] "b" :=
  (deepMerge_returns_updated_destination
    [("a", .pyint 1)] [("b", .pyint 2), ("a", .pyint 0)]
    [("b", .pyint 2), ("a", .pyint 1)]
    (by simp [deepMergeEntries, setKey, lookupKey])).2 "b" rfl

theorem deepMergeEntries_mergedAt :
    ∀ (src dest d' : List (String × PyVal)),
      (src.map Prod.fst).Nodup →
      deepMergeEntries src dest = some d' →
      ∀ k v, lookupKey src k = some v → MergedAt dest d' k v := by
  intro src
  induction src with
  | nil =>
    intro dest d' _ _ k v hkv
    simp [lookupKey] at hkv
  | cons e rest ih =>
    obtain ⟨k₀, v₀⟩ := e
    intro dest d' hnd h k v hkv
    have hnd₀ : k₀ ∉ rest.map Prod.fst := by
      simp only [List.map_cons, List.nodup_cons] at hnd
      exact hnd.1
    have hndr : (rest.map Prod.fst).Nodup := by
      simp only [List.map_cons, List.nodup_cons] at hnd
      exact hnd.2
    by_cases hk : k₀ = k
    · -- the head entry is the one bound to `k`
      subst hk
      have hv : v = v₀ := by
        simp [lookupKey] at hkv
        exact hkv.symm
      subst hv
      have hrest : lookupKey rest k₀ = none :=
        (lookupKey_eq_none_iff rest k₀).mpr hnd₀
      cases v with
      | pydict sub =>
        simp only [deepMergeEntries] at h
        cases hd : lookupKey dest k₀ with
        | none =>
          rw [hd] at h
          dsimp only at h
          cases hm : deepMergeEntries sub [] with
          | none => rw [hm] at h; exact absurd h (by simp)
          | some merged =>
            rw [hm] at h
            dsimp only at h
            have hfix := deepMergeEntries_frame _ _ _ h k₀ hrest
            rw [lookupKey_setKey_self] at hfix
            exact Or.inr (Or.inl ⟨hd, merged, hm, hfix⟩)
        | some w =>
          rw [hd] at h
          cases w with
          | pydict node =>
            dsimp only at h
            cases hm : deepMergeEntries sub node with
            | none => rw [hm] at h; exact absurd h (by simp)
            | some merged =>
              rw [hm] at h
              dsimp only at h
              have hfix := deepMergeEntries_frame _ _ _ h k₀ hrest
              rw [lookupKey_setKey_self] at hfix
              exact Or.inl ⟨node, hd, merged, hm, hfix⟩
          | pynone =>
            dsimp only at h
            cases hsub : sub.isEmpty with
            | true =>
              rw [hsub] at h; simp only [if_true] at h
              have hfix := deepMergeEntries_frame _ _ _ h k₀ hrest
              rw [hd] at hfix
              exact Or.inr (Or.inr ⟨.pynone, hd, rfl,
                List.isEmpty_iff.mp hsub, hfix⟩)
            | false => rw [hsub] at h; simp at h
          | pybool b =>
            dsimp only at h
            cases hsub : sub.isEmpty with
            | true =>
              rw [hsub] at h; simp only [if_true] at h
              have hfix := deepMergeEntries_frame _ _ _ h k₀ hrest
              rw [hd] at hfix
              exact Or.inr (Or.inr ⟨.pybool b, hd, rfl,
                List.isEmpty_iff.mp hsub, hfix⟩)
            | false => rw [hsub] at h; simp at h
          | pyint n =>
            dsimp only at h
            cases hsub : sub.isEmpty with
            | true =>
              rw [hsub] at h; simp only [if_true] at h
              have hfix := deepMergeEntries_frame _ _ _ h k₀ hrest
              rw [hd] at hfix
              exact Or.inr (Or.inr ⟨.pyint n, hd, rfl,
                List.isEmpty_iff.mp hsub, hfix⟩)
            | false => rw [hsub] at h; simp at h
          | pystr s =>
            dsimp only at h
            cases hsub : sub.isEmpty with
            | true =>
              rw [hsub] at h; simp only [if_true] at h
              have hfix := deepMergeEntries_frame _ _ _ h k₀ hrest
              rw [hd] at hfix
              exact Or.inr (Or.inr ⟨.pystr s, hd, rfl,
                List.isEmpty_iff.mp hsub, hfix⟩)
            | false => rw [hsub] at h; simp at h
          | pylist xs =>
            dsimp only at h
            cases hsub : sub.isEmpty with
            | true =>
              rw [hsub] at h; simp only [if_true] at h
              have hfix := deepMergeEntries_frame _ _ _ h k₀ hrest
              rw [hd] at hfix
              exact Or.inr (Or.inr ⟨.pylist xs, hd, rfl,
                List.isEmpty_iff.mp hsub, hfix⟩)
            | false => rw [hsub] at h; simp at h
      | pynone =>
        simp only [deepMergeEntries] at h
        have hfix := deepMergeEntries_frame _ _ _ h k₀ hrest
        rw [lookupKey_setKey_self] at hfix
        exact hfix
      | pybool b =>
        simp only [deepMergeEntries] at h
        have hfix := deepMergeEntries_frame _ _ _ h k₀ hrest
        rw [lookupKey_setKey_self] at hfix
        exact hfix
      | pyint n =>
        simp only [deepMergeEntries] at h
        have hfix := deepMergeEntries_frame _ _ _ h k₀ hrest
        rw [lookupKey_setKey_self] at hfix
        exact hfix
      | pystr s =>
        simp only [deepMergeEntries] at h
        have hfix := deepMergeEntries_frame _ _ _ h k₀ hrest
        rw [lookupKey_setKey_self] at hfix
        exact hfix
      | pylist xs =>
        simp only [deepMergeEntries] at h
        have hfix := deepMergeEntries_frame _ _ _ h k₀ hrest
        rw [lookupKey_setKey_self] at hfix
        exact hfix
    · -- the binding for `k` lives in the tail
      have hkrest : lookupKey rest k = some v := by
        simpa [lookupKey, hk] using hkv
      have step :
          ∀ dest₁, deepMergeEntries rest dest₁ = some d' →
            lookupKey dest₁ k = lookupKey dest k →
            MergedAt dest d' k v := by
        intro dest₁ h₁ hsame
        have := ih dest₁ d' hndr h₁ k v hkrest
        cases v with
        | pydict sub => simpa only [MergedAt, hsame] using this
        | pynone => simpa only [MergedAt] using this
        | pybool b => simpa only [MergedAt] using this
        | pyint n => simpa only [MergedAt] using this
        | pystr s => simpa only [MergedAt] using this
        | pylist xs => simpa only [MergedAt] using this
      cases v₀ with
      | pydict sub =>
        simp only [deepMergeEntries] at h
        cases hd : lookupKey dest k₀ with
        | none =>
          rw [hd] at h
          dsimp only at h
          cases hm : deepMergeEntries sub [] with
          | none => rw [hm] at h; exact absurd h (by simp)
          | some merged =>
            rw [hm] at h
            dsimp only at h
            exact step _ h (lookupKey_setKey_ne _ _ _ _ hk)
        | some w =>
          rw [hd] at h
          cases w with
          | pydict node =>
            dsimp only at h
            cases hm : deepMergeEntries sub node with
            | none => rw [hm] at h; exact absurd h (by simp)
            | some merged =>
              rw [hm] at h
              dsimp only at h
              exact step _ h (lookupKey_setKey_ne _ _ _ _ hk)
          | pynone =>
            dsimp only at h
            cases hsub : sub.isEmpty with
            | true => rw [hsub] at h; simp only [if_true] at h; exact step _ h rfl
            | false => rw [hsub] at h; simp at h
          | pybool b =>
            dsimp only at h
            cases hsub : sub.isEmpty with
            | true => rw [hsub] at h; simp only [if_true] at h; exact step _ h rfl
            | false => rw [hsub] at h; simp at h
          | pyint n =>
            dsimp only at h
            cases hsub : sub.isEmpty with
            | true => rw [hsub] at h; simp only [if_true] at h; exact step _ h rfl
            | false => rw [hsub] at h; simp at h
          | pystr s =>
            dsimp only at h
            cases hsub : sub.isEmpty with
            | true => rw [hsub] at h; simp only [if_true] at h; exact step _ h rfl
            | false => rw [hsub] at h; simp at h
          | pylist xs =>
            dsimp only at h
            cases hsub : sub.isEmpty with
            | true => rw [hsub] at h; simp only [if_true] at h; exact step _ h rfl
            | false => rw [hsub] at h; simp at h
      | pynone =>
        simp only [deepMergeEntries] at h
        exact step _ h (lookupKey_setKey_ne _ _ _ _ hk)
      | pybool b =>
        simp only [deepMergeEntries] at h
        exact step _ h (lookupKey_setKey_ne _ _ _ _ hk)
      | pyint n =>
        simp only [deepMergeEntries] at h
        exact step _ h (lookupKey_setKey_ne _ _ _ _ hk)
      | pystr s =>
        simp only [deepMergeEntries] at h
        exact step _ h (lookupKey_setKey_ne _ _ _ _ hk)
      | pylist xs =>
        simp only [deepMergeEntries] at h
        exact step _ h (lookupKey_setKey_ne _ _ _ _ hk)

theorem deepMergeEntries_clash_none :
    ∀ (src dest : List (String × PyVal)) (k : String)
      (sub : List (String × PyVal)) (w : PyVal),
      lookupKey src k = some (.pydict sub) → sub ≠ [] →
      lookupKey dest k = some w → isDict w = false →
      deepMergeEntries src dest = none := by
  intro src
  induction src with
  | nil => intro dest k sub w hkv; simp [lookupKey] at hkv
  | cons e rest ih =>
    obtain ⟨k₀, v₀⟩ := e
    intro dest k sub w hkv hsub hdw hwnd
    have hesub : ¬ sub.isEmpty = true := by
      simpa [List.isEmpty_iff] using hsub
    by_cases hk : k₀ = k
    · subst hk
      have hv : v₀ = .pydict sub := by
        simp [lookupKey] at hkv
        exact hkv
      subst hv
      simp only [deepMergeEntries]
      rw [hdw]
      cases w with
      | pydict node => simp [isDict] at hwnd
      | pynone => dsimp only; rw [if_neg hesub]
      | pybool b => dsimp only; rw [if_neg hesub]
      | pyint n => dsimp only; rw [if_neg hesub]
      | pystr s => dsimp only; rw [if_neg hesub]
      | pylist xs => dsimp only; rw [if_neg hesub]
    · have hkrest : lookupKey rest k = some (.pydict sub) := by
        simpa [lookupKey, hk] using hkv
      have hstep : ∀ dest₁ : List (String × PyVal),
          lookupKey dest₁ k = lookupKey dest k →
          deepMergeEntries rest dest₁ = none := by
        intro dest₁ hsame
        exact ih dest₁ k sub w hkrest hsub (hsame.trans hdw) hwnd
      cases v₀ with
      | pydict s₀ =>
        simp only [deepMergeEntries]
        cases hd : lookupKey dest k₀ with
        | none =>
          dsimp only
          cases hm : deepMergeEntries s₀ [] with
          | none => rfl
          | some merged =>
            dsimp only
            exact hstep _ (lookupKey_setKey_ne _ _ _ _ hk)
        | some w₀ =>
          cases w₀ with
          | pydict node =>
            dsimp only
            cases hm : deepMergeEntries s₀ node with
            | none => rfl
            | some merged =>
              dsimp only
              exact hstep _ (lookupKey_setKey_ne _ _ _ _ hk)
          | pynone =>
            dsimp only
            cases hs₀ : s₀.isEmpty with
            | true => rw [if_pos rfl]; exact hstep _ rfl
            | false => rw [if_neg (by simp)]
          | pybool b =>
            dsimp only
            cases hs₀ : s₀.isEmpty with
            | true => rw [if_pos rfl]; exact hstep _ rfl
            | false => rw [if_neg (by simp)]
          | pyint n =>
            dsimp only
            cases hs₀ : s₀.isEmpty with
            | true => rw [if_pos rfl]; exact hstep _ rfl
            | false => rw [if_neg (by simp)]
          | pystr s =>
            dsimp only
            cases hs₀ : s₀.isEmpty with
            | true => rw [if_pos rfl]; exact hstep _ rfl
            | false => rw [if_neg (by simp)]
          | pylist xs =>
            dsimp only
            cases hs₀ : s₀.isEmpty with
            | true => rw [if_pos rfl]; exact hstep _ rfl
            | false => rw [if_neg (by simp)]
      | pynone =>
        simp only [deepMergeEntries]
        exact hstep _ (lookupKey_setKey_ne _ _ _ _ hk)
      | pybool b =>
        simp only [deepMergeEntries]
        exact hstep _ (lookupKey_setKey_ne _ _ _ _ hk)
      | pyint n =>
        simp only [deepMergeEntries]
        exact hstep _ (lookupKey_setKey_ne _ _ _ _ hk)
      | pystr s =>
        simp only [deepMergeEntries]
        exact hstep _ (lookupKey_setKey_ne _ _ _ _ hk)
      | pylist xs =>
        simp only [deepMergeEntries]
        exact hstep _ (lookupKey_setKey_ne _ _ _ _ hk)

/-- Counterexample to C2 as stated: for the source `{"a": {"b": 1}}` and the
destination `{"a": 5}`, `_deep_merge` does not merge the source dict into
the destination's value — CPython raises (`AttributeError` on
`5.setdefault`), modelled as `none`. -/
theorem deepMerge_claim_counterexample :
    deepMergeEntries [("a", .pydict [("b", .pyint 1)])] [("a", .pyint 5)] =
      none := by
  simp [deepMergeEntries, lookupKey]

/-- C2 (amended).  For dictionaries on which `_deep_merge` completes, each
source key is merged as the claim describes — a dict value recursively into
the destination's dict value (an empty dict standing in when the key is
absent), a list value replacing wholesale, any other value overwriting —
except that a source dict value meeting an existing non-dict destination
value survives only when the source sub-dict is empty (the destination value
is then left unchanged); when the sub-dict is non-empty, `_deep_merge`
raises instead of completing. -/
theorem deepMerge_per_key_spec (src dest : List (String × PyVal))
    (hnd : (src.map Prod.fst).Nodup) :
    (∀ d', deepMergeEntries src dest = some d' →
      ∀ k v, lookupKey src k = some v → MergedAt dest d' k v)
    ∧ (∀ k sub w, lookupKey src k = some (.pydict sub) → sub ≠ [] →
        lookupKey dest k = some w → isDict w = false →
        deepMergeEntries src dest = none) :=
  ⟨fun d' h k v hkv => deepMergeEntries_mergedAt src dest d' hnd h k v hkv,
   fun k sub w h1 h2 h3 h4 =>
     deepMergeEntries_clash_none src dest k sub w h1 h2 h3 h4⟩

/-- Concrete instance of C2 (amended): in the merge of
`{"a": {"x": 1}, "l": [7]}` into `{"a": {"x": 0, "y": 5}, "l": []}`, the
key `"a"` is merged recursively. -/
theorem deepMerge_per_key_spec_witness :
    MergedAt [("a", .pydict [("x", .pyint 0), ("y", .pyint 5)]), ("l", .pylist [])]
      [("a", .pydict [("x", .pyint 1), ("y", .pyint 5)]), ("l", .pylist [.pyint 7])]
      "a" (.pydict [("x", .pyint 1)]) :=
  (deepMerge_per_key_spec
    [("a", .pydict [("x", .pyint 1)]), ("l", .pylist [.pyint 7])]
    [("a", .pydict [("x", .pyint 0), ("y", .pyint 5)]), ("l", .pylist [])]
    (by simp)).1
    [("a", .pydict [("x", .pyint 1), ("y", .pyint 5)]), ("l", .pylist [.pyint 7])]
    (by simp [deepMergeEntries, setKey, lookupKey]) "a"
    (.pydict [("x", .pyint 1)]) rfl

/-! ### The death test (C10) -/

@[simp] theorem except_ok_bind {ε α β : Type} (a : α) (f : α → Except ε β) :
    (Except.ok a >>= f : Except ε β) = f a := rfl

@[simp] theorem except_error_bind {ε α β : Type} (e : ε) (f : α → Except ε β) :
    (Except.error e >>= f : Except ε β) = Except.error e := rfl

theorem lookupKey_isEmpty_false {l : List (String × PyVal)} {k : String}
    {v : PyVal} (h : lookupKey l k = some v) : l.isEmpty = false := by
  cases l with
  | nil => simp [lookupKey] at h
  | cons e r => rfl

/-- C10.  The death branch of line 205 fires exactly when the updated
character dict binds `health` to a value that is `<= 0` in Python (an
integer `n ≤ 0`, or `False`, which Python treats as `0`); in particular a
record with no `health` key is read as health `1` and therefore alive, so a
successful update omitting `health` never reaches
`_handle_character_death`. -/
theorem deathCondition_health_iff (entries : List (String × PyVal)) :
    (deathCondition (.pydict entries) = .ok true ↔
      (∃ n : Int, lookupKey entries "health" = some (.pyint n) ∧ n ≤ 0) ∨
        lookupKey entries "health" = some (.pybool false))
    ∧ (lookupKey entries "health" = none →
        deathCondition (.pydict entries) = .ok false) := by
  cases hl : lookupKey entries "health" with
  | none =>
    constructor
    · simp only [deathCondition, pyTruthy, pyGet, hl, Option.getD, pyLeZero,
        except_ok_bind, hl]
      constructor
      · intro h
        split at h <;> simp_all
      · rintro (⟨n, hn, _⟩ | hn) <;> simp [hl] at hn
    · intro _
      simp only [deathCondition, pyTruthy, pyGet, hl, Option.getD, pyLeZero,
        except_ok_bind]
      split <;> simp
  | some v =>
    have hne := lookupKey_isEmpty_false hl
    constructor
    · cases v with
      | pyint n =>
        simp only [deathCondition, pyTruthy, hne, Bool.not_false, if_true,
          pyGet, hl, Option.getD, except_ok_bind, pyLeZero]
        constructor
        · intro h
          left
          refine ⟨n, rfl, ?_⟩
          simpa using h
        · rintro (⟨n', hn', hle⟩ | hn')
          · simp only [Option.some_inj, PyVal.pyint.injEq] at hn'
            have : n ≤ 0 := by omega
            simp [this]
          · simp at hn'
      | pybool b =>
        cases b with
        | false => simp [deathCondition, pyTruthy, hne, pyGet, hl, pyLeZero]
        | true => simp [deathCondition, pyTruthy, hne, pyGet, hl, pyLeZero]
      | pynone => simp [deathCondition, pyTruthy, hne, pyGet, hl, pyLeZero]
      | pystr s => simp [deathCondition, pyTruthy, hne, pyGet, hl, pyLeZero]
      | pylist xs => simp [deathCondition, pyTruthy, hne, pyGet, hl, pyLeZero]
      | pydict es => simp [deathCondition, pyTruthy, hne, pyGet, hl, pyLeZero]
    · intro hcontra
      exact Option.noConfusion hcontra

/-- Concrete instance of C10: a character updated to `{"name": "Hero",
"health": 0}` triggers the death branch, while `{"name": "Hero"}` (health
omitted) does not. -/
theorem deathCondition_health_iff_witness :
    deathCondition (.pydict [("name", .pystr "Hero"), ("health", .pyint 0)]) =
        .ok true
    ∧ deathCondition (.pydict [("name", .pystr "Hero")]) = .ok false :=
  ⟨(deathCondition_health_iff
      [("name", .pystr "Hero"), ("health", .pyint 0)]).1.mpr
      (Or.inl ⟨0, by simp [lookupKey], by omega⟩),
   (deathCondition_health_iff [("name", .pystr "Hero")]).2
      (by simp [lookupKey])⟩

/-! ### Hybrid context assembly (C1) -/

theorem intercalate_pair (a b : String) :
    String.intercalate "\n" [a, b] = a ++ "\n" ++ b := by
  simp [String.intercalate, String.intercalate.go]

theorem intercalate_single (a : String) : String.intercalate "\n" [a] = a := by
  simp [String.intercalate, String.intercalate.go]

theorem sortConvs_length (recs : List ConvRecord) :
    (sortConvs recs).length = recs.length :=
  (List.perm_insertionSort _ recs).length_eq

theorem sortConvs_perm (recs : List ConvRecord) :
    List.Perm (sortConvs recs) recs :=
  List.perm_insertionSort _ recs

theorem sortConvs_sorted (recs : List ConvRecord) :
    List.Sorted (fun a b => convLe a b = true) (sortConvs recs) :=
  List.sorted_insertionSort _ recs

/-- C1.  The hybrid context window uses the fixed threshold
`RECENT_LIMIT = 10`: when more than 10 conversation entries are stored, the
chat summary is the vector-search block (present only when the search
returned documents) followed by exactly the 10 most recent entries verbatim
in chronological order — the time-sorted permutation of the stored entries
splits into the older entries and a 10-entry recent suffix dominating them
in the sort order, and only the recent suffix's contents appear in the
summary; with 10 or fewer entries, all entries appear verbatim; with none,
the fixed new-session sentence is produced.  The threshold is a constant of
the code, independent of every input. -/
theorem hybrid_summary_fixed_threshold (recs : List ConvRecord) (ctx : String)
    (rel : Bool) :
    RECENT_LIMIT = 10
    ∧ (recs.length > RECENT_LIMIT →
        ((sortConvs recs).take (recs.length - 10) ++
            (sortConvs recs).drop (recs.length - 10) = sortConvs recs)
        ∧ ((sortConvs recs).drop (recs.length - 10)).length = 10
        ∧ List.Perm (sortConvs recs) recs
        ∧ List.Sorted (fun a b => convLe a b = true) (sortConvs recs)
        ∧ (∀ a ∈ (sortConvs recs).take (recs.length - 10),
            ∀ b ∈ (sortConvs recs).drop (recs.length - 10), convLe a b = true)
        ∧ hybridChatSummary (some recs) ctx rel =
            (if rel then
              "[과거 관련 대화 (벡터 검색)]\n" ++ ctx ++ "\n" ++ "\n" ++
                ("[최근 대화 (10턴)]\n" ++ String.intercalate "\n"
                  (((sortConvs recs).drop (recs.length - 10)).map (·.content)))
             else
              "[최근 대화 (10턴)]\n" ++ String.intercalate "\n"
                (((sortConvs recs).drop (recs.length - 10)).map (·.content))))
    ∧ (recs.length ≤ RECENT_LIMIT → recs ≠ [] →
        List.Perm (sortConvs recs) recs
        ∧ List.Sorted (fun a b => convLe a b = true) (sortConvs recs)
        ∧ hybridChatSummary (some recs) ctx rel =
            "[대화 내역 (" ++ toString recs.length ++ "턴)]\n" ++
              String.intercalate "\n" ((sortConvs recs).map (·.content)))
    ∧ (recs = [] → hybridChatSummary (some recs) ctx rel =
        "새로운 게임 세션입니다.") := by
  have hlen := sortConvs_length recs
  refine ⟨rfl, ?_, ?_, ?_⟩
  · intro hgt
    simp only [RECENT_LIMIT] at hgt
    have hsplit := List.take_append_drop (recs.length - 10) (sortConvs recs)
    have hdlen : ((sortConvs recs).drop (recs.length - 10)).length = 10 := by
      rw [List.length_drop, hlen]
      omega
    have hsorted := sortConvs_sorted recs
    have hpairs : ∀ a ∈ (sortConvs recs).take (recs.length - 10),
        ∀ b ∈ (sortConvs recs).drop (recs.length - 10), convLe a b = true := by
      have hs := hsorted
      rw [← hsplit] at hs
      exact (List.pairwise_append.mp hs).2.2
    refine ⟨hsplit, hdlen, sortConvs_perm recs, hsorted, hpairs, ?_⟩
    have hne : ((sortConvs recs).drop (recs.length - 10)).isEmpty = false := by
      cases hrec : (sortConvs recs).drop (recs.length - 10) with
      | nil => rw [hrec] at hdlen; simp at hdlen
      | cons x xs => rfl
    have hlit : "[최근 대화 (" ++ toString (10 : Nat) ++ "턴)]\n" =
        "[최근 대화 (10턴)]\n" := by decide
    simp only [hybridChatSummary, buildChatSummary, hlen, RECENT_LIMIT]
    rw [if_pos hgt]
    rw [hdlen, hne]
    cases rel with
    | true =>
      simp only [if_true, Bool.not_false, List.singleton_append]
      simp only [List.isEmpty_cons, Bool.not_false]
      rw [if_true, intercalate_pair, hlit]
    | false =>
      simp only [Bool.false_eq_true, if_false, List.nil_append, if_true,
        Bool.not_false]
      simp only [List.isEmpty_cons, Bool.not_false]
      rw [if_true, intercalate_single, hlit]
  · intro hle hne
    simp only [RECENT_LIMIT] at hle
    refine ⟨sortConvs_perm recs, sortConvs_sorted recs, ?_⟩
    have hsne : (sortConvs recs).isEmpty = false := by
      cases hrec : sortConvs recs with
      | nil =>
        rw [hrec] at hlen
        exact absurd (List.length_eq_zero.mp hlen.symm) hne
      | cons x xs => rfl
    simp only [hybridChatSummary, buildChatSummary, hlen, RECENT_LIMIT]
    rw [if_neg (show ¬ recs.length > 10 by omega), hsne]
    simp only [Bool.not_false, if_true]
    simp only [List.isEmpty_cons, Bool.not_false]
    rw [if_true, intercalate_single]
  · intro hnil
    subst hnil
    simp [hybridChatSummary, buildChatSummary, sortConvs, RECENT_LIMIT,
      List.insertionSort]

/-- Concrete instance of C1: with 11 stored entries, the split keeps exactly
10 recent entries verbatim. -/
theorem hybrid_summary_fixed_threshold_witness :
    (((sortConvs ((List.range 11).map (fun i =>
        ConvRecord.mk ("c" ++ toString i) ("t" ++ toString i) 0 "user"))).drop
          (((List.range 11).map (fun i =>
            ConvRecord.mk ("c" ++ toString i) ("t" ++ toString i) 0 "user")).length
            - 10)).length = 10) :=
  ((hybrid_summary_fixed_threshold
    ((List.range 11).map (fun i =>
      ConvRecord.mk ("c" ++ toString i) ("t" ++ toString i) 0 "user"))
    "CTX" true).2.1 (by decide)).2.1

/-! ### MongoDB chat-history lemmas (C5, C9) -/

theorem le_foldr_max (l : List Nat) : ∀ x ∈ l, x ≤ l.foldr max 0 := by
  induction l with
  | nil => intro x hx; simp at hx
  | cons a l ih =>
    intro x hx
    rcases List.mem_cons.mp hx with h | h
    · subst h
      simp only [List.foldr]
      exact Nat.le_max_left _ _
    · have := ih x h
      simp only [List.foldr]
      exact Nat.le_trans this (Nat.le_max_right _ _)

theorem foldr_max_le (l : List Nat) (b : Nat) (h : ∀ x ∈ l, x ≤ b) :
    l.foldr max 0 ≤ b := by
  induction l with
  | nil => simp
  | cons a l ih =>
    simp only [List.foldr]
    have ha := h a (List.mem_cons_self a l)
    have hl := ih (fun x hx => h x (List.mem_cons_of_mem a hx))
    exact Nat.max_le.mpr ⟨ha, hl⟩

theorem findMaxSeqDoc_none (db : List ChatMsg) (g : String)
    (h : findMaxSeqDoc db g = none) :
    db.filter (fun m => decide (m.gameId = g)) = [] := by
  unfold findMaxSeqDoc at h
  cases hs : List.insertionSort (fun a b : ChatMsg => b.seq ≤ a.seq)
      (db.filter (fun m => decide (m.gameId = g))) with
  | nil =>
    have := (List.perm_insertionSort (fun a b : ChatMsg => b.seq ≤ a.seq)
      (db.filter (fun m => decide (m.gameId = g)))).symm
    rw [hs] at this
    exact this.eq_nil
  | cons m rest => rw [hs] at h; simp at h

theorem findMaxSeqDoc_spec (db : List ChatMsg) (g : String) (m : ChatMsg)
    (h : findMaxSeqDoc db g = some m) :
    m ∈ db.filter (fun x => decide (x.gameId = g)) ∧
      ∀ x ∈ db.filter (fun x => decide (x.gameId = g)), x.seq ≤ m.seq := by
  unfold findMaxSeqDoc at h
  cases hs : List.insertionSort (fun a b : ChatMsg => b.seq ≤ a.seq)
      (db.filter (fun m => decide (m.gameId = g))) with
  | nil => rw [hs] at h; simp at h
  | cons m₀ rest =>
    rw [hs] at h
    simp only [List.head?] at h
    injection h with h
    subst h
    have hperm := List.perm_insertionSort (fun a b : ChatMsg => b.seq ≤ a.seq)
      (db.filter (fun m => decide (m.gameId = g)))
    rw [hs] at hperm
    have hsorted := List.sorted_insertionSort
      (fun a b : ChatMsg => b.seq ≤ a.seq)
      (db.filter (fun m => decide (m.gameId = g)))
    rw [hs] at hsorted
    have hdom := (List.sorted_cons.mp hsorted).1
    constructor
    · exact hperm.mem_iff.mp (List.mem_cons_self m₀ rest)
    · intro x hx
      rcases List.mem_cons.mp (hperm.mem_iff.mpr hx) with hx' | hx'
      · subst hx'; exact Nat.le_refl _
      · exact hdom x hx'

theorem addChatMessage_eq (db : List ChatMsg) (g ui ar : String) (t : Nat) :
    addChatMessage db g ui ar t = db ++ [⟨g, maxSeqOf db g + 1, ui, ar, t⟩] := by
  unfold addChatMessage
  cases h : findMaxSeqDoc db g with
  | none =>
    have hfil := findMaxSeqDoc_none db g h
    simp [maxSeqOf, hfil]
  | some m =>
    obtain ⟨hmem, hdom⟩ := findMaxSeqDoc_spec db g m h
    have heq : m.seq = maxSeqOf db g := by
      apply Nat.le_antisymm
      · exact le_foldr_max _ m.seq (List.mem_map_of_mem (·.seq) hmem)
      · apply foldr_max_le
        intro x hx
        rcases List.mem_map.mp hx with ⟨y, hy, hxy⟩
        rw [← hxy]
        exact hdom y hy
    simp [heq]

theorem addChatMessage_seqInv (db : List ChatMsg) (g ui ar : String) (t : Nat)
    (h : SeqInv db) : SeqInv (addChatMessage db g ui ar t) := by
  rw [addChatMessage_eq]
  rw [SeqInv, List.pairwise_append]
  refine ⟨h, List.pairwise_singleton _ _, ?_⟩
  intro a ha b hb
  simp only [List.mem_singleton] at hb
  subst hb
  intro hg
  have hafil : a ∈ db.filter (fun m => decide (m.gameId = g)) :=
    List.mem_filter.mpr ⟨ha, by simp [hg]⟩
  have : a.seq ≤ maxSeqOf db g :=
    le_foldr_max _ a.seq (List.mem_map_of_mem (·.seq) hafil)
  show a.seq < maxSeqOf db g + 1
  omega

theorem addChatMessage_posSeq (db : List ChatMsg) (g ui ar : String) (t : Nat)
    (h : ∀ m ∈ db, 1 ≤ m.seq) :
    ∀ m ∈ addChatMessage db g ui ar t, 1 ≤ m.seq := by
  rw [addChatMessage_eq]
  intro m hm
  rcases List.mem_append.mp hm with hm | hm
  · exact h m hm
  · simp only [List.mem_singleton] at hm
    subst hm
    simp

theorem mkDB_seqInv_go (ops : List AddOp) :
    ∀ db, SeqInv db →
      SeqInv (ops.foldl (fun db op =>
        addChatMessage db op.gameId op.userInput op.aiResponse op.time) db) := by
  induction ops with
  | nil => intro db h; exact h
  | cons op rest ih =>
    intro db h
    exact ih _ (addChatMessage_seqInv db _ _ _ _ h)

theorem mkDB_seqInv (ops : List AddOp) : SeqInv (mkDB ops) :=
  mkDB_seqInv_go ops [] List.Pairwise.nil

theorem mkDB_posSeq_go (ops : List AddOp) :
    ∀ db, (∀ m ∈ db, 1 ≤ m.seq) →
      ∀ m ∈ ops.foldl (fun db op =>
        addChatMessage db op.gameId op.userInput op.aiResponse op.time) db,
        1 ≤ m.seq := by
  induction ops with
  | nil => intro db h; exact h
  | cons op rest ih =>
    intro db h
    exact ih _ (addChatMessage_posSeq db _ _ _ _ h)

theorem mkDB_posSeq (ops : List AddOp) : ∀ m ∈ mkDB ops, 1 ≤ m.seq :=
  mkDB_posSeq_go ops [] (by intro m hm; simp at hm)

theorem mkDB_timeInv_go (ops : List AddOp)
    (hops : List.Pairwise (fun a b : AddOp => a.time ≤ b.time) ops) :
    ∀ db, TimeInv db → (∀ m ∈ db, ∀ op ∈ ops, m.timestamp ≤ op.time) →
      TimeInv (ops.foldl (fun db op =>
        addChatMessage db op.gameId op.userInput op.aiResponse op.time) db) := by
  induction ops with
  | nil => intro db h _; exact h
  | cons op rest ih =>
    intro db h hbound
    rcases List.pairwise_cons.mp hops with ⟨hop, hrest⟩
    apply ih hrest
    · show TimeInv (addChatMessage db op.gameId op.userInput op.aiResponse op.time)
      rw [addChatMessage_eq, TimeInv, List.pairwise_append]
      refine ⟨h, List.pairwise_singleton _ _, ?_⟩
      intro a ha b hb
      simp only [List.mem_singleton] at hb
      subst hb
      exact hbound a ha op (List.mem_cons_self _ _)
    · intro m hm op' hop'
      have hm : m ∈ addChatMessage db op.gameId op.userInput op.aiResponse
          op.time := hm
      rw [addChatMessage_eq] at hm
      rcases List.mem_append.mp hm with hm | hm
      · exact hbound m hm op' (List.mem_cons_of_mem _ hop')
      · simp only [List.mem_singleton] at hm
        subst hm
        exact hop op' hop'

theorem mkDB_timeInv (ops : List AddOp)
    (hops : List.Pairwise (fun a b : AddOp => a.time ≤ b.time) ops) :
    TimeInv (mkDB ops) :=
  mkDB_timeInv_go ops hops [] List.Pairwise.nil (by intro m hm; simp at hm)

theorem sameGame_seq_time (db : List ChatMsg) (hseq : SeqInv db)
    (htime : TimeInv db) :
    ∀ a ∈ db, ∀ b ∈ db, a.gameId = b.gameId → a.seq ≤ b.seq →
      a.timestamp ≤ b.timestamp := by
  intro a ha b hb hg hle
  obtain ⟨i, hi⟩ := List.get_of_mem ha
  obtain ⟨j, hj⟩ := List.get_of_mem hb
  rcases Nat.lt_trichotomy i.val j.val with hij | hij | hij
  · have := (List.pairwise_iff_get.mp htime) i j (by exact hij)
    rw [hi, hj] at this
    exact this
  · have : i = j := Fin.ext hij
    subst this
    rw [hi] at hj
    subst hj
    exact Nat.le_refl _
  · have := (List.pairwise_iff_get.mp hseq) j i (by exact hij)
    rw [hi, hj] at this
    have := this hg.symm
    omega

theorem getChatHistory_spec (db : List ChatMsg) (g : String) (limit : Nat) :
    (getChatHistory db g limit).length ≤ limit
    ∧ List.Sorted (fun a b : ChatMsg => a.seq ≤ b.seq) (getChatHistory db g limit)
    ∧ ∃ dropped, List.Perm (db.filter (fun m => decide (m.gameId = g)))
        (getChatHistory db g limit ++ dropped)
      ∧ ∀ x ∈ getChatHistory db g limit, ∀ y ∈ dropped, y.seq ≤ x.seq := by
  have hR : getChatHistory db g limit =
      List.insertionSort (fun a b => a.seq ≤ b.seq)
        ((List.insertionSort (fun a b : ChatMsg => b.seq ≤ a.seq)
          (db.filter (fun m => decide (m.gameId = g)))).take limit) := rfl
  have hpermR := List.perm_insertionSort (fun a b : ChatMsg => a.seq ≤ b.seq)
    ((List.insertionSort (fun a b : ChatMsg => b.seq ≤ a.seq)
      (db.filter (fun m => decide (m.gameId = g)))).take limit)
  refine ⟨?_, ?_, ?_⟩
  · rw [hR, hpermR.length_eq, List.length_take]
    exact min_le_left _ _
  · rw [hR]
    exact List.sorted_insertionSort _ _
  · refine ⟨(List.insertionSort (fun a b : ChatMsg => b.seq ≤ a.seq)
      (db.filter (fun m => decide (m.gameId = g)))).drop limit, ?_, ?_⟩
    · have h1 : List.Perm (db.filter (fun m => decide (m.gameId = g)))
          (List.insertionSort (fun a b : ChatMsg => b.seq ≤ a.seq)
            (db.filter (fun m => decide (m.gameId = g)))) :=
        (List.perm_insertionSort _ _).symm
      have h2 := List.take_append_drop limit
        (List.insertionSort (fun a b : ChatMsg => b.seq ≤ a.seq)
          (db.filter (fun m => decide (m.gameId = g))))
      rw [← h2] at h1
      exact h1.trans (hpermR.symm.append_right _)
    · intro x hx y hy
      have hx' : x ∈ (List.insertionSort (fun a b : ChatMsg => b.seq ≤ a.seq)
          (db.filter (fun m => decide (m.gameId = g)))).take limit := by
        rw [hR] at hx
        exact hpermR.mem_iff.mp hx
      have hsorted := List.sorted_insertionSort
        (fun a b : ChatMsg => b.seq ≤ a.seq)
        (db.filter (fun m => decide (m.gameId = g)))
      rw [← List.take_append_drop limit
        (List.insertionSort (fun a b : ChatMsg => b.seq ≤ a.seq)
          (db.filter (fun m => decide (m.gameId = g))))] at hsorted
      exact (List.pairwise_append.mp hsorted).2.2 x hx' y hy

/-- C9.  Per-game chat sequence numbers are positive, unique and strictly
increasing in insertion order: every database reachable by
`add_chat_message` calls has only sequence numbers `≥ 1`, strictly
increasing per game in insertion order; each call appends a message whose
sequence number is one plus the game's current maximum (so `1` when the
game has no messages, the empty maximum being `0`); and `get_chat_history`
returns at most `limit` messages, in ascending sequence order, which
dominate every message of the game it leaves out. -/
theorem chat_sequence_numbers_spec (ops : List AddOp) (db : List ChatMsg)
    (g ui ar : String) (t limit : Nat) :
    (∀ m ∈ mkDB ops, 1 ≤ m.seq)
    ∧ List.Pairwise (fun a b => a.gameId = b.gameId → a.seq < b.seq) (mkDB ops)
    ∧ addChatMessage db g ui ar t = db ++ [⟨g, maxSeqOf db g + 1, ui, ar, t⟩]
    ∧ (db.filter (fun m => decide (m.gameId = g)) = [] → maxSeqOf db g + 1 = 1)
    ∧ (getChatHistory (mkDB ops) g limit).length ≤ limit
    ∧ List.Sorted (fun a b : ChatMsg => a.seq ≤ b.seq)
        (getChatHistory (mkDB ops) g limit)
    ∧ ∃ dropped, List.Perm ((mkDB ops).filter (fun m => decide (m.gameId = g)))
        (getChatHistory (mkDB ops) g limit ++ dropped)
      ∧ ∀ x ∈ getChatHistory (mkDB ops) g limit, ∀ y ∈ dropped,
          y.seq ≤ x.seq := by
  obtain ⟨h1, h2, h3⟩ := getChatHistory_spec (mkDB ops) g limit
  exact ⟨mkDB_posSeq ops, mkDB_seqInv ops, addChatMessage_eq db g ui ar t,
    fun hfil => by simp [maxSeqOf, hfil], h1, h2, h3⟩

/-- Concrete instance of C9: with two messages stored for game `"g"`, the
history of limit 1 holds at most one message. -/
theorem chat_sequence_numbers_spec_witness :
    (getChatHistory (mkDB [⟨"g", "u1", "a1", 1⟩, ⟨"g", "u2", "a2", 2⟩])
      "g" 1).length ≤ 1 :=
  (chat_sequence_numbers_spec [⟨"g", "u1", "a1", 1⟩, ⟨"g", "u2", "a2", 2⟩]
    [] "g" "u" "a" 5 1).2.2.2.2.1

/-- C5.  Every prior-dialogue list assembled for context use is in
ascending timestamp order: the full conversation list sorted in
`process_game_request`, the history sorted in `_handle_character_death`,
and — provided the wall clock did not go backwards across the inserting
calls — the chat history `get_chat_history` returns from the store. -/
theorem context_lists_sorted_by_timestamp (recs : List ConvRecord)
    (ops : List AddOp) (g : String) (limit : Nat)
    (hops : List.Pairwise (fun a b : AddOp => a.time ≤ b.time) ops) :
    List.Sorted (fun a b => tsLe a b = true) (sortConvs recs)
    ∧ List.Sorted (fun a b => tsLe a b = true) (sortConvsByTimestamp recs)
    ∧ List.Sorted (fun a b : ChatMsg => a.timestamp ≤ b.timestamp)
        (getChatHistory (mkDB ops) g limit) := by
  refine ⟨?_, ?_, ?_⟩
  · apply List.Pairwise.imp ?_ (sortConvs_sorted recs)
    intro a b hab
    simp only [convLe, Bool.or_eq_true, Bool.and_eq_true, decide_eq_true_eq]
      at hab
    simp only [tsLe, Bool.or_eq_true, decide_eq_true_eq]
    rcases hab with hab | ⟨hab, _⟩
    · exact Or.inl hab
    · exact Or.inr hab
  · exact List.sorted_insertionSort _ recs
  · obtain ⟨_, hsorted, dropped, hperm, _⟩ := getChatHistory_spec (mkDB ops) g limit
    have hmemdb : ∀ x ∈ getChatHistory (mkDB ops) g limit,
        x ∈ mkDB ops ∧ x.gameId = g := by
      intro x hx
      have : x ∈ (mkDB ops).filter (fun m => decide (m.gameId = g)) :=
        hperm.mem_iff.mpr (List.mem_append.mpr (Or.inl hx))
      rcases List.mem_filter.mp this with ⟨hdb, hg⟩
      exact ⟨hdb, by simpa using hg⟩
    apply List.Pairwise.imp_of_mem ?_ hsorted
    intro a b ha hb hab
    obtain ⟨hadb, hag⟩ := hmemdb a ha
    obtain ⟨hbdb, hbg⟩ := hmemdb b hb
    exact sameGame_seq_time (mkDB ops) (mkDB_seqInv ops) (mkDB_timeInv ops hops)
      a hadb b hbdb (hag.trans hbg.symm) hab

/-- Concrete instance of C5: the history retrieved for game `"g"` after two
monotone-clock inserts is in ascending timestamp order. -/
theorem context_lists_sorted_by_timestamp_witness :
    List.Sorted (fun a b : ChatMsg => a.timestamp ≤ b.timestamp)
      (getChatHistory (mkDB [⟨"g", "u1", "a1", 1⟩, ⟨"g", "u2", "a2", 2⟩])
        "g" 20) :=
  (context_lists_sorted_by_timestamp []
    [⟨"g", "u1", "a1", 1⟩, ⟨"g", "u2", "a2", 2⟩] "g" 20
    (by simp [List.pairwise_cons])).2.2

/-! ### The `process_game_request` pipeline (C3, C4, C6) -/

theorem handleCharacterDeath_fields (env : Env) (char : PyVal) (ui : String)
    (msg : PyVal) :
    lookupKey (dictEntries (handleCharacterDeath env char ui msg)) "success" =
        some (.pybool true)
    ∧ lookupKey (dictEntries (handleCharacterDeath env char ui msg)) "game_over" =
        some (.pybool true)
    ∧ lookupKey (dictEntries (handleCharacterDeath env char ui msg)) "options" =
        some (.pylist [])
    ∧ lookupKey (dictEntries (handleCharacterDeath env char ui msg)) "need_image" =
        some (.pybool false)
    ∧ lookupKey (dictEntries (handleCharacterDeath env char ui msg)) "message" =
        some (.pystr (deathMessageText char (env.llmInvoke
          (deathPromptText char (deathHistoryText env) ui msg)))) := by
  refine ⟨?_, ?_, ?_, ?_, ?_⟩ <;> simp [handleCharacterDeath, dictEntries, lookupKey]

theorem characterPhase_some (env : Env) (ui : String) (rd d : PyVal)
    (h : characterPhase env ui rd = .ok (some d)) :
    ∃ char msg, d = handleCharacterDeath env char ui msg := by
  unfold characterPhase at h
  cases hc : pyContains rd "update_character" with
  | error e => rw [hc] at h; simp at h
  | ok mem =>
    rw [hc] at h
    simp only [except_ok_bind] at h
    cases mem with
    | false => simp [pure, Except.pure] at h
    | true =>
      simp only [if_true] at h
      cases hu : pyIndexStr rd "update_character" with
      | error e => rw [hu] at h; simp at h
      | ok u =>
        rw [hu] at h
        simp only [except_ok_bind] at h
        cases htd : (pyTruthy u && isDict u) with
        | false => rw [htd] at h; simp [pure, Except.pure] at h
        | true =>
          rw [htd] at h
          simp only [if_true] at h
          cases hup : updateCharacterInfo env (dictEntries u) with
          | error e => rw [hup] at h; simp at h
          | ok upd =>
            rw [hup] at h
            simp only [except_ok_bind] at h
            cases upd with
            | none => simp [pure, Except.pure] at h
            | some char =>
              simp only [] at h
              cases hd : deathCondition char with
              | error e => rw [hd] at h; simp at h
              | ok dead =>
                rw [hd] at h
                simp only [except_ok_bind] at h
                cases dead with
                | false => simp [pure, Except.pure] at h
                | true =>
                  simp only [if_true] at h
                  cases hm : pyIndexStr rd "message" with
                  | error e => rw [hm] at h; simp at h
                  | ok msg =>
                    rw [hm] at h
                    simp only [except_ok_bind] at h
                    refine ⟨char, msg, ?_⟩
                    have := h
                    simp only [pure, Except.pure] at this
                    injection this with this
                    injection this with this
                    exact this.symm

theorem persistAndRespond_ok (env : Env) (ui : String) (rd r : PyVal)
    (effs : Effects) (h : persistAndRespond env ui rd = .ok (r, effs)) :
    ∃ es m, rd = .pydict es ∧ lookupKey es "message" = some m
      ∧ lookupKey (dictEntries r) "success" = some (.pybool true)
      ∧ lookupKey (dictEntries r) "message" = some m
      ∧ lookupKey (dictEntries r) "game_over" = none
      ∧ effs.memoryAdds = [⟨"game", ui, m⟩]
      ∧ ∃ sfx, effs.vectorAdds =
          [⟨"game", "user_input", "사용자: " ++ ui⟩,
           ⟨"game", "ai_response", "GM: " ++ pyStr m ++ sfx⟩] := by
  cases rd with
  | pynone => simp [persistAndRespond, pyIndexStr] at h
  | pybool b => simp [persistAndRespond, pyIndexStr] at h
  | pyint n => simp [persistAndRespond, pyIndexStr] at h
  | pystr s => simp [persistAndRespond, pyIndexStr] at h
  | pylist xs => simp [persistAndRespond, pyIndexStr] at h
  | pydict es =>
    cases hm : lookupKey es "message" with
    | none => simp [persistAndRespond, pyIndexStr, hm] at h
    | some m =>
      have hne := lookupKey_isEmpty_false hm
      have htr : pyTruthy (.pydict es) = true := by simp [pyTruthy, hne]
      refine ⟨es, m, rfl, hm, ?_⟩
      simp only [persistAndRespond, pyIndexStr, hm, except_ok_bind, htr,
        if_true, pyContains, hm, Option.isSome_some, pyGet] at h
      by_cases c1 : pyTruthy ((lookupKey es "need_image").getD (.pybool false)) = true
      · simp only [c1, if_true, except_ok_bind] at h
        by_cases c2 : pyTruthy ((lookupKey es "image_prompt").getD .pynone) = true
        · simp only [c2, if_true, pure, Except.pure, except_ok_bind] at h
          injection h with h
          injection h with hr he
          subst hr
          subst he
          refine ⟨?_, ?_, ?_, rfl, ?_⟩
          · simp [dictEntries, lookupKey]
          · simp [dictEntries, lookupKey]
          · simp [dictEntries, lookupKey]
          · exact ⟨_, rfl⟩
        · simp only [c2, if_false, pure, Except.pure, except_ok_bind] at h
          injection h with h
          injection h with hr he
          subst hr
          subst he
          refine ⟨?_, ?_, ?_, rfl, ?_⟩
          · simp [dictEntries, lookupKey]
          · simp [dictEntries, lookupKey]
          · simp [dictEntries, lookupKey]
          · exact ⟨_, rfl⟩
      · simp only [c1, if_false, pure, Except.pure, except_ok_bind] at h
        injection h with h
        injection h with hr he
        subst hr
        subst he
        refine ⟨?_, ?_, ?_, rfl, ?_⟩
        · simp [dictEntries, lookupKey]
        · simp [dictEntries, lookupKey]
        · simp [dictEntries, lookupKey]
        · exact ⟨_, rfl⟩

/-- C4.  Whenever `process_game_request` returns a narrative response (a
successful, non-game-over result), the exchange was persisted before
returning: the user input together with the response message was added to
the LangChain conversation memory, and both the user input (prefixed
`사용자: `) and the AI message (prefixed `GM: `, possibly followed by an
image-URL suffix) were added to the vector store. -/
theorem exchange_persisted_on_narrative (env : Env) (ui : String) (r : PyVal)
    (effs : Effects)
    (hrun : processGameRequest env ui = (r, effs))
    (hsucc : lookupKey (dictEntries r) "success" = some (.pybool true))
    (hlive : lookupKey (dictEntries r) "game_over" = none) :
    ∃ m, lookupKey (dictEntries r) "message" = some m
      ∧ (⟨"game", ui, m⟩ : MemoryAdd) ∈ effs.memoryAdds
      ∧ (∃ va ∈ effs.vectorAdds, va.source = "user_input" ∧
          va.content = "사용자: " ++ ui)
      ∧ (∃ va ∈ effs.vectorAdds, va.source = "ai_response" ∧
          ∃ sfx, va.content = "GM: " ++ pyStr m ++ sfx) := by
  unfold processGameRequest at hrun
  cases hbody : processBody env ui with
  | error e =>
    rw [hbody] at hrun
    injection hrun with hr he
    subst hr
    simp [handleError, dictEntries, lookupKey] at hsucc
  | ok p =>
    obtain ⟨r₀, effs₀⟩ := p
    rw [hbody] at hrun
    injection hrun with hr he
    subst hr
    subst he
    unfold processBody at hbody
    dsimp only at hbody
    cases hcp : characterPhase env ui
        (responseDataFor (env.gmRun env.gameContext
          (hybridChatSummary env.storeRecords (contextInfoOf env)
            (!env.relevantDocs.isEmpty))
          (contextInfoOf env) ui)) with
    | error e => rw [hcp] at hbody; simp at hbody
    | ok death? =>
      rw [hcp] at hbody
      simp only [except_ok_bind] at hbody
      cases death? with
      | some d =>
        simp only [pure, Except.pure] at hbody
        injection hbody with hbody
        injection hbody with hr2 he2
        obtain ⟨char, msg, hd⟩ := characterPhase_some env ui _ d hcp
        exfalso
        have hfield : lookupKey (dictEntries r₀) "game_over" =
            some (.pybool true) := by
          rw [← hr2, hd]
          exact (handleCharacterDeath_fields env char ui msg).2.1
        rw [hfield] at hlive
        exact Option.noConfusion hlive
      | none =>
        obtain ⟨es, m, _, _, _, hmsg', _, hmem, sfx, hvec⟩ :=
          persistAndRespond_ok env ui _ r₀ effs₀ hbody
        refine ⟨m, hmsg', ?_, ?_, ?_⟩
        · rw [hmem]
          exact List.mem_singleton_self _
        · refine ⟨⟨"game", "user_input", "사용자: " ++ ui⟩, ?_, rfl, rfl⟩
          rw [hvec]
          exact List.mem_cons_self _ _
        · refine ⟨⟨"game", "ai_response", "GM: " ++ pyStr m ++ sfx⟩, ?_, rfl,
            sfx, rfl⟩
          rw [hvec]
          exact List.mem_cons_of_mem _ (List.mem_cons_self _ _)

/-- C6.  `process_game_request` propagates no exception: whenever its body
raises, the function instead returns the `_handle_error` dict — success
`False`, one of the three canned messages picked by `random.choice`, the
fixed options, the stringified exception, and a timestamp — having recorded
no persistence effect (no retry, no rollback: the body ran once and its
partial work stands). -/
theorem error_path_spec (env : Env) (ui : String) (e : PyErr)
    (h : processBody env ui = .error e) :
    processGameRequest env ui = (handleError env e, noEffects)
    ∧ lookupKey (dictEntries (handleError env e)) "success" =
        some (.pybool false)
    ∧ lookupKey (dictEntries (handleError env e)) "error" =
        some (.pystr (errString e))
    ∧ lookupKey (dictEntries (handleError env e)) "message" =
        some (.pystr (errorResponses.getD
          (env.errorPick % errorResponses.length) ""))
    ∧ (errorResponses.getD (env.errorPick % errorResponses.length) "")
        ∈ errorResponses := by
  refine ⟨?_, ?_, ?_, ?_, ?_⟩
  · unfold processGameRequest
    rw [h]
  · simp [handleError, dictEntries, lookupKey]
  · simp [handleError, dictEntries, lookupKey]
  · simp [handleError, dictEntries, lookupKey]
  · have h3 : env.errorPick % errorResponses.length = 0
        ∨ env.errorPick % errorResponses.length = 1
        ∨ env.errorPick % errorResponses.length = 2 := by
      have hlen3 : errorResponses.length = 3 := rfl
      rw [hlen3]
      omega
    rcases h3 with h3 | h3 | h3 <;> rw [h3] <;> simp [errorResponses]

/-- Concrete instance of C6: an LLM response without a `message` key makes
step 7 raise `KeyError`, and `process_game_request` returns the
`_handle_error` dict instead of propagating. -/
theorem error_path_spec_witness :
    processGameRequest envNoMsg "hi" =
      (handleError envNoMsg (.keyError "message"), noEffects) :=
  (error_path_spec envNoMsg "hi" (.keyError "message") (by rfl)).1

theorem envDeathNoMsg_update :
    updateCharacterInfo envDeathNoMsg [("health", .pyint 0)] =
      .ok (some (.pydict [("health", .pyint 0)])) := by
  simp [updateCharacterInfo, envDeathNoMsg, deepMerge, deepMergeEntries,
    lookupKey, setKey, allowedFields]

/-- Counterexample to C3 as stated: the LLM response
`{"update_character": {"health": 0}}` has a valid `update_character` dict,
the update succeeds and leaves health `0`, yet `process_game_request` does
not return the `_handle_character_death` response — evaluating
`response_data["message"]` for the death call raises `KeyError`, so the
run ends in `_handle_error` with `success` `False` and no `game_over`
key. -/
theorem death_branch_counterexample :
    processGameRequest envDeathNoMsg "attack" =
      (handleError envDeathNoMsg (.keyError "message"), noEffects)
    ∧ lookupKey (dictEntries (handleError envDeathNoMsg (.keyError "message")))
        "success" = some (.pybool false)
    ∧ lookupKey (dictEntries (handleError envDeathNoMsg (.keyError "message")))
        "game_over" = none := by
  have hcp : characterPhase envDeathNoMsg "attack"
      (.pydict [("update_character", .pydict [("health", .pyint 0)])]) =
      .error (.keyError "message") := by
    simp [characterPhase, pyContains, lookupKey, pyIndexStr, pyTruthy, isDict,
      dictEntries, envDeathNoMsg_update, deathCondition, pyGet, pyLeZero]
  have hgm : ∀ a b c d, envDeathNoMsg.gmRun a b c d = .parsed (.pydict
      [("update_character", .pydict [("health", .pyint 0)])]) :=
    fun _ _ _ _ => rfl
  have hbody : processBody envDeathNoMsg "attack" =
      .error (.keyError "message") := by
    unfold processBody
    dsimp only
    rw [hgm]
    simp only [responseDataFor]
    rw [hcp]
    rfl
  refine ⟨?_, ?_, ?_⟩
  · unfold processGameRequest
    rw [hbody]
  · simp [handleError, dictEntries, lookupKey]
  · simp [handleError, dictEntries, lookupKey]

/-- C3 (amended).  For every request whose LLM response parses to a dict
holding a truthy `update_character` dict **and a `message` key**, if the
character update succeeds and the updated character fails the health test,
`process_game_request` returns exactly the `_handle_character_death`
response instead of the normal result: success with `game_over` `True`, an
empty options list, `need_image` `False`, and a farewell message built
around one further LLM invocation on the death prompt; nothing is persisted
on this path.  (Without the `message` key the death call's argument raises
`KeyError` first — see the counterexample.) -/
theorem death_branch_spec (env : Env) (ui : String)
    (dataEntries uEntries : List (String × PyVal)) (char m : PyVal)
    (hgm : env.gmRun env.gameContext
      (hybridChatSummary env.storeRecords (contextInfoOf env)
        (!env.relevantDocs.isEmpty)) (contextInfoOf env) ui =
      .parsed (.pydict dataEntries))
    (hupd : lookupKey dataEntries "update_character" = some (.pydict uEntries))
    (hne : uEntries ≠ [])
    (hupdres : updateCharacterInfo env uEntries = .ok (some char))
    (hdead : deathCondition char = .ok true)
    (hmsg : lookupKey dataEntries "message" = some m) :
    processGameRequest env ui =
      (handleCharacterDeath env char ui m, noEffects)
    ∧ lookupKey (dictEntries (handleCharacterDeath env char ui m))
        "success" = some (.pybool true)
    ∧ lookupKey (dictEntries (handleCharacterDeath env char ui m))
        "game_over" = some (.pybool true)
    ∧ lookupKey (dictEntries (handleCharacterDeath env char ui m))
        "options" = some (.pylist [])
    ∧ lookupKey (dictEntries (handleCharacterDeath env char ui m))
        "need_image" = some (.pybool false)
    ∧ lookupKey (dictEntries (handleCharacterDeath env char ui m))
        "message" = some (.pystr (deathMessageText char (env.llmInvoke
          (deathPromptText char (deathHistoryText env) ui m)))) := by
  have hueb : uEntries.isEmpty = false := by
    simpa [List.isEmpty_iff] using hne
  have hcp : characterPhase env ui (.pydict dataEntries) =
      .ok (some (handleCharacterDeath env char ui m)) := by
    unfold characterPhase
    simp [pyContains, pyIndexStr, pyTruthy, isDict, dictEntries, hupd, hueb,
      hupdres, hdead, hmsg, pure, Except.pure]
  have hbody : processBody env ui =
      .ok (handleCharacterDeath env char ui m, noEffects) := by
    unfold processBody
    dsimp only
    rw [hgm]
    simp only [responseDataFor]
    rw [hcp]
    rfl
  obtain ⟨f1, f2, f3, f4, f5⟩ := handleCharacterDeath_fields env char ui m
  refine ⟨?_, f1, f2, f3, f4, f5⟩
  unfold processGameRequest
  rw [hbody]

/-- Concrete instance of C3 (amended): with the `message` key present, the
death branch returns the `_handle_character_death` response. -/
theorem death_branch_spec_witness :
    processGameRequest envDeathMsg "attack" =
      (handleCharacterDeath envDeathMsg (.pydict [("health", .pyint 0)])
        "attack" (.pystr "the blow lands"), noEffects) :=
  (death_branch_spec envDeathMsg "attack"
    [("update_character", .pydict [("health", .pyint 0)]),
     ("message", .pystr "the blow lands")]
    [("health", .pyint 0)] (.pydict [("health", .pyint 0)])
    (.pystr "the blow lands") rfl rfl (by simp)
    (by simp [updateCharacterInfo, envDeathMsg, deepMerge, deepMergeEntries,
      lookupKey, setKey, allowedFields])
    (by simp [deathCondition, pyTruthy, pyGet, lookupKey, pyLeZero])
    rfl).1

/-- Concrete instance of C4: the plain narrative run persists the exchange
in the memory trace and the vector trace. -/
theorem exchange_persisted_on_narrative_witness :
    ∃ m, lookupKey (dictEntries (processGameRequest envNormal "go").1)
        "message" = some m
      ∧ (⟨"game", "go", m⟩ : MemoryAdd) ∈
          (processGameRequest envNormal "go").2.memoryAdds
      ∧ (∃ va ∈ (processGameRequest envNormal "go").2.vectorAdds,
          va.source = "user_input" ∧ va.content = "사용자: " ++ "go")
      ∧ (∃ va ∈ (processGameRequest envNormal "go").2.vectorAdds,
          va.source = "ai_response" ∧
            ∃ sfx, va.content = "GM: " ++ pyStr m ++ sfx) :=
  exchange_persisted_on_narrative envNormal "go"
    (processGameRequest envNormal "go").1
    (processGameRequest envNormal "go").2
    rfl (by rfl) (by rfl)

end DBTest
